import Mathlib

/-!
Verification development for the grant_scraper repository
(`fundsforngos_scraper.py` and companion scripts).

The Python source is shallowly embedded: each regular expression of the
scraper is hand-compiled into an executable backtracking matcher over
`List Char` with Python `re` semantics (leftmost match, alternation in
source order, greedy quantifiers with backtracking), Python runtime
errors are modelled with `Except PyErr`, and Python's dynamically typed
values that can hold `None`, an `int` or a `str` are modelled with
`PyVal`.  Floating point arithmetic of the source is modelled with exact
natural-number arithmetic; every concrete computation appearing in the
theorems below stays in the range where CPython's `float` is exact.
-/

namespace GrantScraper

/-- Python runtime errors that the scraper's control flow can raise and
catch: `TypeError` (e.g. `re.search` on `None`) and `ValueError`
(e.g. tuple unpacking with the wrong arity). -/
inductive PyErr where
  | typeError
  | valueError
  deriving DecidableEq, Repr

/-- A dynamically typed Python value as stored in a grant dictionary
field: `None`, an `int`, or a `str`. -/
inductive PyVal where
  | vnone
  | vint (n : Nat)
  | vstr (s : String)
  deriving DecidableEq, Repr

/-- Python truthiness for the `PyVal` fragment we use:
`None` and `0` and `""` are falsy. -/
def pyTruthy : PyVal → Bool
  | .vnone => false
  | .vint n => n ≠ 0
  | .vstr s => s ≠ ""

/-- Decimal digit test, `\d` of the source's regexes (ASCII fragment). -/
def isPyDigit (c : Char) : Bool := '0' ≤ c && c ≤ '9'

/-- Whitespace test, `\s` of the source's regexes (ASCII fragment;
all inputs analysed here are ASCII plus currency symbols). -/
def isPySpace (c : Char) : Bool :=
  c = ' ' || c = '\t' || c = '\n' || c = '\r' || c = Char.ofNat 11 || c = Char.ofNat 12

/-- Word-character test, `\w` of the source's regexes (ASCII fragment). -/
def isPyWord (c : Char) : Bool :=
  isPyDigit c || ('a' ≤ c && c ≤ 'z') || ('A' ≤ c && c ≤ 'Z') || c = '_'

/-- ASCII lower-casing, as `str.lower` acts on the characters occurring
in the scraper's inputs (currency symbols are fixed points). -/
def lowerChar (c : Char) : Char :=
  if 'A' ≤ c && c ≤ 'Z' then Char.ofNat (c.toNat + 32) else c

/-- Case-insensitive character equality (Python `re.IGNORECASE`). -/
def ciChar (a b : Char) : Bool := lowerChar a = lowerChar b

/-- Case-insensitive prefix match: if the pattern literal `p` matches a
prefix of `s` (ignoring case), return the consumed prefix of `s`
(original casing) together with the rest. -/
def ciPrefixDrop : List Char → List Char → Option (List Char × List Char)
  | [], s => some ([], s)
  | _ :: _, [] => none
  | p :: ps, c :: cs =>
    if ciChar p c then
      match ciPrefixDrop ps cs with
      | some (pre, rest) => some (c :: pre, rest)
      | none => none
    else none

/-- Numeric value of a digit character. -/
def digitVal (c : Char) : Nat := c.toNat - '0'.toNat

/-- Value of a decimal digit string (left to right). -/
def natOfDigits (l : List Char) : Nat :=
  l.foldl (fun acc c => acc * 10 + digitVal c) 0

/-- The decimal digit character of a value below ten. -/
def digitChar : Nat → Char
  | 0 => '0'
  | 1 => '1'
  | 2 => '2'
  | 3 => '3'
  | 4 => '4'
  | 5 => '5'
  | 6 => '6'
  | 7 => '7'
  | 8 => '8'
  | _ => '9'

/-- Digits of `n` in reverse order, with explicit fuel (the fuel is
instantiated with `n` itself, which always suffices). -/
def natDigitsRevGo : Nat → Nat → List Char
  | _, 0 => []
  | 0, _ + 1 => []
  | fuel + 1, n + 1 => digitChar ((n + 1) % 10) :: natDigitsRevGo fuel ((n + 1) / 10)

/-- Digits of `n` in reverse order (helper for `natRepr`). -/
def natDigitsRev (n : Nat) : List Char := natDigitsRevGo n n

/-- Python `str(n)` for a non-negative integer, as a character list. -/
def natRepr (n : Nat) : List Char :=
  if n = 0 then ['0'] else (natDigitsRev n).reverse

/-- Comma grouping of a tail whose length is a multiple of three:
every three digits are preceded by a comma. -/
def groups3 : List Char → List Char
  | a :: b :: c :: rest => ',' :: a :: b :: c :: groups3 rest
  | _ => []

/-- Python's thousands-separator formatting `f"{n:,}"` applied to the
digit list of a non-negative integer. -/
def commaGroup (ds : List Char) : List Char :=
  let r := ds.length % 3
  let k := if r = 0 then 3 else r
  ds.take k ++ groups3 (ds.drop k)

/-- First result of `f` over the candidate list `l`
(backtracking in preference order). -/
def firstSome : List α → (α → Option β) → Option β
  | [], _ => none
  | a :: l, f =>
    match f a with
    | some b => some b
    | none => firstSome l f

/-- Length of the leading run of characters satisfying `p`. -/
def runLen (p : Char → Bool) : List Char → Nat
  | [] => 0
  | c :: cs => if p c then runLen p cs + 1 else 0

/-- Backtracking candidates (consumed, rest) for the greedy bounded
repetition `p{lo,hi}` of a character class, longest first. -/
def classRepCands (p : Char → Bool) (lo hi : Nat) (s : List Char) :
    List (List Char × List Char) :=
  let m := min hi (runLen p s)
  if m < lo then []
  else (List.range (m - lo + 1)).map fun i => (s.take (m - i), s.drop (m - i))

/-- Candidates for a greedy `p*` on a character class. -/
def starClassCands (p : Char → Bool) (s : List Char) : List (List Char × List Char) :=
  classRepCands p 0 s.length s

/-- Candidates for a greedy `p+` on a character class. -/
def plusClassCands (p : Char → Bool) (s : List Char) : List (List Char × List Char) :=
  classRepCands p 1 s.length s

/-- Candidates for the greedy star `(?:,\d{3})*` of the number pattern,
most iterations first. -/
def cg3Cands : List Char → List (List Char × List Char)
  | s@(',' :: a :: b :: c :: rest) =>
    if isPyDigit a && isPyDigit b && isPyDigit c then
      ((cg3Cands rest).map fun x => (',' :: a :: b :: c :: x.1, x.2)) ++ [([], s)]
    else [([], s)]
  | s => [([], s)]

/-- Candidates for the greedy optional decimal part `(?:\.\d{1,2})?`. -/
def decCands (s : List Char) : List (List Char × List Char) :=
  (match s with
   | '.' :: rest => (classRepCands isPyDigit 1 2 rest).map fun x => ('.' :: x.1, x.2)
   | _ => []) ++ [([], s)]

/-- Candidates for the source's number pattern
`\d{1,3}(?:,\d{3})*(?:\.\d{1,2})?`. -/
def numCands (s : List Char) : List (List Char × List Char) :=
  (classRepCands isPyDigit 1 3 s).flatMap fun x =>
    (cg3Cands x.2).flatMap fun y =>
      (decCands y.2).map fun z => (x.1 ++ y.1 ++ z.1, z.2)

/-- Candidates for the currency capture `([$€£]|USD|EUR|GBP)` with
`re.IGNORECASE` (symbol alternative first, then the codes in source
order). -/
def curCands (s : List Char) : List (List Char × List Char) :=
  (match s with
   | c :: rest => if c = '$' || c = '€' || c = '£' then [([c], rest)] else []
   | [] => []) ++
  (["USD", "EUR", "GBP"].filterMap fun code => ciPrefixDrop code.data s)

/-- Wrap a capture in a greedy `(...)?`: matched candidates first, then
the skip candidate recording a `None` group. -/
def optCapCands (base : List Char → List (List Char × List Char)) (s : List Char) :
    List (Option (List Char) × List Char) :=
  ((base s).map fun x => (some x.1, x.2)) ++ [(none, s)]

/-- Position after the match must not start with a word character
(the `\b` that follows a word-character position). -/
def wordBoundaryAfter (s : List Char) : Bool :=
  match s with
  | [] => true
  | c :: _ => !isPyWord c

/-- Candidates for `(?:k|thousand|million)\b` under `re.IGNORECASE`. -/
def multWordCands (s : List Char) : List (List Char × List Char) :=
  (["k", "thousand", "million"].filterMap fun w => ciPrefixDrop w.data s).filter
    fun x => wordBoundaryAfter x.2

/-- Candidates for the multiplier capture group
`(\s*(?:k|thousand|million)\b)`; the captured text includes whatever of
the leading whitespace the group body consumed. -/
def multGroupCands (s : List Char) : List (List Char × List Char) :=
  (starClassCands isPySpace s).flatMap fun x =>
    (multWordCands x.2).map fun y => (x.1 ++ y.1, y.2)

/-- Candidates for the standard-range pattern's optional multiplier
`(?:\s*(\s*(?:k|thousand|million)\b))?`. -/
def optMultOuterCands (s : List Char) : List (Option (List Char) × List Char) :=
  ((starClassCands isPySpace s).flatMap fun x =>
    (multGroupCands x.2).map fun y => (some y.1, y.2)) ++ [(none, s)]

/-- Candidates for `(?:-|to)` under `re.IGNORECASE`. -/
def dashToCands (s : List Char) : List (List Char × List Char) :=
  (match s with
   | '-' :: r => [(['-'], r)]
   | _ => []) ++
  (match ciPrefixDrop ['t', 'o'] s with
   | some x => [x]
   | none => [])

/-- Candidates for `0?\d{1,3}` (mangled-range first group), optional
zero taken first (greedy). -/
def zeroOptDigitsCands (s : List Char) : List (List Char × List Char) :=
  (match s with
   | '0' :: r => (classRepCands isPyDigit 1 3 r).map fun x => ('0' :: x.1, x.2)
   | _ => []) ++ classRepCands isPyDigit 1 3 s

/-- Match of `\b(0?\d{1,3})\s*-\s*(\d{1,3})\b` (the source's
`mangled_range_pattern`) anchored at the current position, given the
character preceding the position.  Returns the two captured groups. -/
def mangledAt (prev : Option Char) (s : List Char) : Option (List Char × List Char) :=
  if (match prev with | some c => isPyWord c | none => false) then none
  else
    firstSome (zeroOptDigitsCands s) fun x =>
    firstSome (starClassCands isPySpace x.2) fun y =>
    match y.2 with
    | '-' :: r3 =>
      firstSome (starClassCands isPySpace r3) fun z =>
      firstSome (classRepCands isPyDigit 1 3 z.2) fun w =>
      if wordBoundaryAfter w.2 then some (x.1, w.1) else none
    | _ => none

/-- Leftmost search for the mangled-range pattern (threads the previous
character for the leading `\b`). -/
def searchMangled : Option Char → List Char → Option (List Char × List Char)
  | prev, [] => mangledAt prev []
  | prev, c :: t =>
    match mangledAt prev (c :: t) with
    | some r => some r
    | none => searchMangled (some c) t

/-- Match of the source's `standard_range_pattern`
`(?:CUR)?\s*NUM(?:\s*MULT)?\s*(?:-|to)\s*(?:CUR)?\s*NUM(?:\s*MULT)?`
anchored at the current position.  The pattern contains exactly six
capture groups (two currencies, two numbers, two multipliers); the
groups are returned as a list in pattern order, `None` for a
non-participating group, exactly like Python's `match.groups()`. -/
def stdRangeAt (s0 : List Char) : Option (List (Option (List Char))) :=
  firstSome (optCapCands curCands s0) fun c1 =>
  firstSome (starClassCands isPySpace c1.2) fun a =>
  firstSome (numCands a.2) fun n1 =>
  firstSome (optMultOuterCands n1.2) fun m1 =>
  firstSome (starClassCands isPySpace m1.2) fun b =>
  firstSome (dashToCands b.2) fun d =>
  firstSome (starClassCands isPySpace d.2) fun e =>
  firstSome (optCapCands curCands e.2) fun c2 =>
  firstSome (starClassCands isPySpace c2.2) fun f =>
  firstSome (numCands f.2) fun n2 =>
  firstSome (optMultOuterCands n2.2) fun m2 =>
  some [c1.1, some n1.1, m1.1, c2.1, some n2.1, m2.1]

/-- Generic leftmost search for an anchored matcher that also returns
the rest of the input after the match. -/
def searchAt (atF : List Char → Option (α × List Char)) : List Char → Option (α × List Char)
  | [] => atF []
  | c :: t =>
    match atF (c :: t) with
    | some r => some r
    | none => searchAt atF t

/-- Leftmost search for the standard-range pattern. -/
def searchStdRange : List Char → Option (List (Option (List Char)))
  | [] => stdRangeAt []
  | c :: t =>
    match stdRangeAt (c :: t) with
    | some g => some g
    | none => searchStdRange t

/-- Candidates for `(?:up to|maximum of|upto)` under `re.IGNORECASE`. -/
def uptoKeyCands (s : List Char) : List (List Char × List Char) :=
  ["up to", "maximum of", "upto"].filterMap fun w => ciPrefixDrop w.data s

/-- Match of the source's `upto_pattern`
`(?:up to|maximum of|upto)\s+(?:CUR)?\s*NUM(?:MULT)?\s*(?:CUR)?`
anchored at the current position; returns the four capture groups
(currency before, number, multiplier, currency after).  Note the
multiplier group here is not preceded by an explicit `\s*`, so its
captured text retains any leading whitespace. -/
def uptoAt (s0 : List Char) :
    Option (Option (List Char) × List Char × Option (List Char) × Option (List Char)) :=
  firstSome (uptoKeyCands s0) fun k =>
  firstSome (plusClassCands isPySpace k.2) fun a =>
  firstSome (optCapCands curCands a.2) fun c1 =>
  firstSome (starClassCands isPySpace c1.2) fun b =>
  firstSome (numCands b.2) fun n =>
  firstSome (optCapCands multGroupCands n.2) fun m =>
  firstSome (starClassCands isPySpace m.2) fun c =>
  firstSome (optCapCands curCands c.2) fun c2 =>
  some (c1.1, n.1, m.1, c2.1)

/-- Leftmost search for the `up to / maximum of` pattern. -/
def searchUpto :
    List Char → Option (Option (List Char) × List Char × Option (List Char) × Option (List Char))
  | [] => uptoAt []
  | c :: t =>
    match uptoAt (c :: t) with
    | some g => some g
    | none => searchUpto t

/-- Candidates for the strict-single keyword alternation
`(?:grants? of|prize of|award of|funding of|amount:)` under
`re.IGNORECASE` (the greedy `s?` of `grants?` tried with the `s`
first). -/
def strictKeyCands (s : List Char) : List (List Char × List Char) :=
  ["grants of", "grant of", "prize of", "award of", "funding of", "amount:"].filterMap
    fun w => ciPrefixDrop w.data s

/-- Match of the source's `strict_single_pattern`
`(?:KEYWORD)\s*CUR?\s*NUM\s*MULT?\s*CUR?` anchored at the current
position.  Returns the four capture groups together with the rest of
the input after the match (for `finditer` resumption). -/
def strictAt (s0 : List Char) :
    Option ((Option (List Char) × List Char × Option (List Char) × Option (List Char)) ×
      List Char) :=
  firstSome (strictKeyCands s0) fun k =>
  firstSome (starClassCands isPySpace k.2) fun a =>
  firstSome (optCapCands curCands a.2) fun c1 =>
  firstSome (starClassCands isPySpace c1.2) fun b =>
  firstSome (numCands b.2) fun n =>
  firstSome (starClassCands isPySpace n.2) fun c =>
  firstSome (optCapCands multGroupCands c.2) fun m =>
  firstSome (starClassCands isPySpace m.2) fun d =>
  firstSome (optCapCands curCands d.2) fun c2 =>
  some ((c1.1, n.1, m.1, c2.1), c2.2)

/-- Candidates for the bare currency-code capture `(USD|EUR|GBP)`
under `re.IGNORECASE`. -/
def codeCands (s : List Char) : List (List Char × List Char) :=
  ["USD", "EUR", "GBP"].filterMap fun code => ciPrefixDrop code.data s

/-- Match of the source's `code_single_pattern`
`(USD|EUR|GBP)\s*NUM\s*MULT?` anchored at the current position. -/
def codeAt (s0 : List Char) :
    Option ((List Char × List Char × Option (List Char)) × List Char) :=
  firstSome (codeCands s0) fun cu =>
  firstSome (starClassCands isPySpace cu.2) fun a =>
  firstSome (numCands a.2) fun n =>
  firstSome (starClassCands isPySpace n.2) fun b =>
  firstSome (optCapCands multGroupCands b.2) fun m =>
  some ((cu.1, n.1, m.1), m.2)

/-- Candidates for the bare currency-symbol capture `([$€£])`. -/
def symCands (s : List Char) : List (List Char × List Char) :=
  match s with
  | c :: rest => if c = '$' || c = '€' || c = '£' then [([c], rest)] else []
  | [] => []

/-- Match of the source's `symbol_single_pattern`
`([$€£])\s*NUM\s*MULT?` anchored at the current position. -/
def symbolAt (s0 : List Char) :
    Option ((List Char × List Char × Option (List Char)) × List Char) :=
  firstSome (symCands s0) fun cu =>
  firstSome (starClassCands isPySpace cu.2) fun a =>
  firstSome (numCands a.2) fun n =>
  firstSome (starClassCands isPySpace n.2) fun b =>
  firstSome (optCapCands multGroupCands b.2) fun m =>
  some ((cu.1, n.1, m.1), m.2)

/-- Python `re.finditer`: successive non-overlapping leftmost matches
(every pattern used here consumes at least one character, so the
empty-match advance rule of `re` is never exercised).  `fuel` is
instantiated with the input length plus one. -/
def finditers (atF : List Char → Option (α × List Char)) : Nat → List Char → List α
  | 0, _ => []
  | fuel + 1, s =>
    match searchAt atF s with
    | none => []
    | some (a, rest) => a :: finditers atF fuel rest

/-- Python `str.strip()` (whitespace strip on both ends). -/
def stripWs (l : List Char) : List Char :=
  ((l.dropWhile isPySpace).reverse.dropWhile isPySpace).reverse

/-- The fragment of Python `float(str)` exercised by the scraper's
number regex: an optional integer part, an optional dot and fractional
part.  Returns (integer part, fractional part, number of fractional
digits); fails (Python `ValueError`) on the empty string, a lone dot,
or any non-digit content. -/
def pyFloatParts (l : List Char) : Option (Nat × Nat × Nat) :=
  let a := l.takeWhile (fun c => c ≠ '.')
  let r := l.dropWhile (fun c => c ≠ '.')
  if !a.all isPyDigit then none
  else
    match r with
    | [] => if a.isEmpty then none else some (natOfDigits a, 0, 0)
    | _ :: b =>
      if b.all isPyDigit && !(a.isEmpty && b.isEmpty) && !b.any (fun c => c = '.') then
        some (natOfDigits a, natOfDigits b, b.length)
      else none

/-- Multiplier resolution of the source's `clean_and_convert`: the
captured multiplier string is lower-cased and compared for equality
with `'k'`, `'thousand'`, `'million'`; anything else (including a
captured multiplier retaining leading whitespace) leaves the
multiplier at 1. -/
def multOf (m : Option (List Char)) : Nat :=
  match m with
  | none => 1
  | some w =>
    let ml := w.map lowerChar
    if ml = ['k'] || ml = "thousand".data then 1000
    else if ml = "million".data then 1000000
    else 1

/-- The source's `clean_and_convert` (lines 79-93): strip currency
symbols, commas and surrounding whitespace from the captured number,
parse it as a float, apply the multiplier, truncate to an integer.
Float arithmetic is modelled exactly; `None` on conversion failure. -/
def cleanAndConvert (numStr : Option (List Char)) (multStr : Option (List Char)) :
    Option Nat :=
  match numStr with
  | none => none
  | some ns =>
    let cleaned := stripWs (ns.filter fun c => !(c = '$' || c = '€' || c = '£' || c = ','))
    match pyFloatParts cleaned with
    | none => none
    | some (ip, fr, d) => some ((ip * 10 ^ d + fr) * multOf multStr / 10 ^ d)

/-- A candidate of the single-amount pool (value, currency group, raw
number string and multiplier string kept for the year guard). -/
structure RawCand where
  val : Nat
  currency : Option (List Char)
  numStr : List Char
  multStr : Option (List Char)
  deriving DecidableEq, Repr

/-- The year guard of the single-amount pool (line 225): a candidate
whose value lies in `[1990, 2050]`, whose multiplier group is `None`
and whose number string has no decimal point is a year false
positive. -/
def isYearCand (c : RawCand) : Bool :=
  1990 ≤ c.val && c.val ≤ 2050 && c.multStr = none && !c.numStr.any (fun ch => ch = '.')

/-- Candidates produced by the strict-single matches of a text: groups
are unpacked as `cur1, num, mult, cur2` with `currency = cur1 or cur2`,
then converted; conversion failures are dropped (lines 210-228). -/
def strictRawCands (s : List Char) : List RawCand :=
  (finditers strictAt (s.length + 1) s).filterMap fun g =>
    match cleanAndConvert (some g.2.1) g.2.2.1 with
    | some v => some ⟨v, g.1 <|> g.2.2.2, g.2.1, g.2.2.1⟩
    | none => none

/-- Candidates produced by the currency-code matches of a text. -/
def codeRawCands (s : List Char) : List RawCand :=
  (finditers codeAt (s.length + 1) s).filterMap fun g =>
    match cleanAndConvert (some g.2.1) g.2.2 with
    | some v => some ⟨v, some g.1, g.2.1, g.2.2⟩
    | none => none

/-- Candidates produced by the currency-symbol matches of a text. -/
def symbolRawCands (s : List Char) : List RawCand :=
  (finditers symbolAt (s.length + 1) s).filterMap fun g =>
    match cleanAndConvert (some g.2.1) g.2.2 with
    | some v => some ⟨v, some g.1, g.2.1, g.2.2⟩
    | none => none

/-- All single-amount candidates in pattern order (strict keywords,
then currency codes, then currency symbols), before the year guard. -/
def allSingleCands (s : List Char) : List RawCand :=
  strictRawCands s ++ codeRawCands s ++ symbolRawCands s

/-- The pooled single-amount candidates, after discarding year false
positives (the `if not is_year` filter before `potential_matches.append`). -/
def pooledCands (s : List Char) : List RawCand :=
  (allSingleCands s).filter fun c => !isYearCand c

/-- Python's stable `sort(key=value, reverse=True)` followed by taking
the head: the first candidate with the maximal value. -/
def pickMax (l : List RawCand) : Option RawCand :=
  l.foldl (fun best c =>
    match best with
    | none => some c
    | some b => if c.val > b.val then some c else some b) none

/-- The standard-range branch body (lines 160-175): Python unpacks
`match.groups()` into seven variables `cur1, num1, mult1, cur2, num2,
mult2, cur3`; if the tuple has any other arity the unpacking raises
`ValueError`.  On a successful unpack the second bound inherits the
first multiplier, both bounds are converted, the larger is emitted and
the currency is the first truthy entry of
`[max_val_cur, cur3, cur1, cur2]`, defaulting to `"$"`; a conversion
failure falls through to the next matcher (`.ok none`). -/
def rangeGroupsLogic (gs : List (Option (List Char))) :
    Except PyErr (Option (PyVal × PyVal)) :=
  match gs with
  | [cur1, num1, mult1, cur2, num2, mult2, cur3] =>
    let mult2i := mult2 <|> mult1
    match cleanAndConvert num1 mult1, cleanAndConvert num2 mult2i with
    | some v1, some v2 =>
      let maxValCur := if v2 ≥ v1 then cur2 else cur1
      let cur := (((maxValCur <|> cur3) <|> cur1) <|> cur2).getD ['$']
      .ok (some (.vstr (String.mk (cur ++ natRepr (max v1 v2))), .vnone))
    | _, _ => .ok none
  | _ => .error .valueError

/-- The single-amount branch result (lines 230-239): the first maximal
pooled candidate as a bare `int` paired with its currency group, else
`(None, None)`. -/
def singlesResult (s : List Char) : PyVal × PyVal :=
  match pickMax (pooledCands s) with
  | some c =>
    (.vint c.val, match c.currency with
      | some cu => .vstr (String.mk cu)
      | none => .vnone)
  | none => (.vnone, .vnone)

/-- The cascade after the two range matchers: `up to / maximum of`
(lines 178-191), then the pooled single amounts (lines 193-235), then
the `(None, None)` fallback (line 239). -/
def uptoAndSingles (s : List Char) : PyVal × PyVal :=
  match searchUpto s with
  | some (c1, n, m, c2) =>
    (match cleanAndConvert (some n) m with
     | some v =>
       (.vstr (String.mk ((c1 <|> c2).getD ['$'] ++ natRepr v)), .vnone)
     | none => singlesResult s)
  | none => singlesResult s

/-- The mangled-range branch (lines 144-156): both captured bounds are
converted with the multiplier `'thousand'`; on success the result is
`"$"` plus the larger value, on conversion failure the branch falls
through. -/
def branchMangled (s : List Char) : Option (PyVal × PyVal) :=
  match searchMangled none s with
  | some (g1, g2) =>
    match cleanAndConvert (some g1) (some "thousand".data),
          cleanAndConvert (some g2) (some "thousand".data) with
    | some v1, some v2 =>
      some (.vstr (String.mk ('$' :: natRepr (max v1 v2))), .vnone)
    | _, _ => none
  | none => none

/-- The source's `extract_amount` (lines 59-239).  Branch order:
mangled range (both bounds assumed thousands, currency `"$"`),
standard range (whose seven-variable unpack of a six-group tuple
raises `ValueError`), `up to`/`maximum of`, pooled single amounts,
else `(None, None)`.  The `ValueError` propagates to the caller (it is
caught only by the per-article handler at line 676). -/
def extractAmount (text : String) : Except PyErr (PyVal × PyVal) :=
  match branchMangled text.data with
  | some r => .ok r
  | none =>
    match searchStdRange text.data with
    | some gs =>
      match rangeGroupsLogic gs with
      | .error e => .error e
      | .ok (some r) => .ok r
      | .ok none => .ok (uptoAndSingles text.data)
    | none => .ok (uptoAndSingles text.data)

/-- Round-half-even of `ip + fr / 10^d` (with `fr < 10^d`), the
rounding of Python's `f"{value:,.0f}"`. -/
def roundHalfEven (ip fr d : Nat) : Nat :=
  let p := 10 ^ d
  if 2 * fr < p then ip
  else if 2 * fr > p then ip + 1
  else if ip % 2 = 0 then ip else ip + 1

/-- Python's `amount_str.startswith(('$', '£', '€'))`. -/
def startsWithSym (l : List Char) : Bool :=
  match l with
  | c :: _ => c = '$' || c = '£' || c = '€'
  | [] => false

/-- The source's `clean_amount_value` (lines 341-367): falsy input
(`None`, `0`, `""`) gives `None`; an `int` is formatted as
`f"${n:,}"`; an all-digit string gets a `"$"` and comma grouping; a
string starting with a currency symbol is re-formatted as symbol plus
the comma-grouped rounded value of its digits (unchanged if the float
parse fails); anything else is returned unchanged.  The `£`
replacement of line 348 replaces `'\u00a3'` with itself and is the
identity. -/
def cleanAmountValue : PyVal → PyVal
  | .vnone => .vnone
  | .vint n =>
    if n = 0 then .vnone
    else .vstr (String.mk ('$' :: commaGroup (natRepr n)))
  | .vstr s =>
    if s = "" then .vnone
    else if s.data.all isPyDigit then
      .vstr (String.mk ('$' :: commaGroup (natRepr (natOfDigits s.data))))
    else if startsWithSym s.data then
      match pyFloatParts (s.data.filter fun ch => isPyDigit ch || ch = '.') with
      | some (ip, fr, d) =>
        .vstr (String.mk (s.data.headD ' ' :: commaGroup (natRepr (roundHalfEven ip fr d))))
      | none => .vstr s
    else .vstr s

/-- The save-time treatment of the `amount` field (lines 719-737): a
`None` amount is kept as `None` (lines 722-724), and
`clean_amount_value` is applied only when the stored amount is truthy
(line 736), so the bare integer `0` escapes the cleanup. -/
def saveCleanupAmount (a : PyVal) : PyVal :=
  let a1 := if a = PyVal.vnone then PyVal.vnone else a
  if pyTruthy a1 then cleanAmountValue a1 else a1

/-- The amount that ends up in the persisted record for a detail text:
`extract_amount` (line 653), assignment to `grant['amount']`
(line 654), then the save-time cleanup.  `none` means the extraction
raised, the per-article handler (line 676) skipped the article, and no
record was persisted at all. -/
def finalAmount (text : String) : Option PyVal :=
  match extractAmount text with
  | .error _ => none
  | .ok (a, _) => some (saveCleanupAmount a)

/-- Tail of a comma-grouped numeral: a possibly empty sequence of
`,ddd` blocks. -/
def groupedTail : List Char → Bool
  | [] => true
  | ',' :: a :: b :: c :: rest =>
    isPyDigit a && isPyDigit b && isPyDigit c && groupedTail rest
  | _ => false

/-- A decimal numeral with thousands separators: one to three leading
digits followed by `,ddd` blocks. -/
def groupedDigits (l : List Char) : Bool :=
  let h := l.takeWhile isPyDigit
  1 ≤ h.length && h.length ≤ 3 && groupedTail (l.drop h.length)

/-- A decimal representation of a non-negative integer: a non-empty
digit string, or a comma-grouped numeral. -/
def intLiteral (l : List Char) : Bool :=
  (!l.isEmpty && l.all isPyDigit) || groupedDigits l

/-- A currency marker of the extractor: one of the symbols `$ € £` or
one of the codes `USD EUR GBP` in any casing. -/
def isCurrencyTok (l : List Char) : Bool :=
  l = ['$'] || l = ['€'] || l = ['£'] ||
  l.map lowerChar = "usd".data || l.map lowerChar = "eur".data ||
  l.map lowerChar = "gbp".data

/-- The `amount` shape stated by the specification: a currency symbol
or code immediately followed by the decimal representation of a
non-negative integer. -/
def isCurrencyAmount (v : PyVal) : Bool :=
  match v with
  | .vstr s =>
    let l := s.data
    (1 ≤ l.length && isCurrencyTok (l.take 1) && intLiteral (l.drop 1)) ||
    (3 ≤ l.length && isCurrencyTok (l.take 3) && intLiteral (l.drop 3))
  | _ => false

/-! ### Deduplication gate (lines 253-264 and 661-668) -/

/-- The part of a candidate grant record relevant to deduplication. -/
structure GrantRec where
  applicationUrl : String
  title : String
  deriving DecidableEq, Repr

/-- The deduplication state: the output collection and the
known-identity set `existing_grant_urls` (a Python `set`, modelled as
the list of registered keys). -/
structure DedupState where
  grants : List GrantRec
  urls : List String
  deriving DecidableEq, Repr

/-- One pass of the gate (lines 661-668): a candidate whose
`applicationUrl` is already registered is skipped without error;
otherwise it is appended to the output collection and its URL is
registered immediately. -/
def dedupStep (st : DedupState) (g : GrantRec) : DedupState :=
  if g.applicationUrl ∈ st.urls then st
  else ⟨st.grants ++ [g], st.urls ++ [g.applicationUrl]⟩

/-- The gate folded over the candidates of one run. -/
def runDedup (st : DedupState) (cs : List GrantRec) : DedupState :=
  cs.foldl dedupStep st

/-- Startup seeding (lines 253-264): the identity set is initialised
with the `applicationUrl` of every loaded record, and the output
collection starts as the loaded collection. -/
def seedState (loaded : List GrantRec) : DedupState :=
  ⟨loaded, loaded.map (·.applicationUrl)⟩

/-- Number of records with a given `applicationUrl`. -/
def countUrl (gs : List GrantRec) (u : String) : Nat :=
  gs.countP fun g => g.applicationUrl = u

/-! ### Per-article orchestration (lines 290-693)

The per-article `grant` dictionary is initialised with
`'title': None` (line 309) and nothing assigns `grant['title']` before
`extract_organization(article, grant)` runs at line 454, whose first
executed statement is `re.search(pattern, title, re.IGNORECASE)` with
`title = grant.get('title', '') = None`. -/

/-- The value of `grant['title']` at line 454: the line-309 default,
never reassigned in between. -/
def grantInitTitle : Option String := none

/-- Argument handling of `re.search`: a `None` string argument raises
`TypeError`; with an actual string the call proceeds (the rest of the
article body is abstracted by the caller's continuation). -/
def reSearchArg (s : Option String) : Except PyErr String :=
  match s with
  | none => .error .typeError
  | some t => .ok t

/-- A scraped listing as far as the executed code inspects it before
the failing call: whether it has an `entry-title` heading with a
hyperlink (lines 313-318). -/
structure Article where
  hasTitleLink : Bool
  deriving DecidableEq, Repr

/-- The ambient state of the page loop. -/
structure ScrapeState where
  grants : List GrantRec
  urls : List String
  pageHasValidGrants : Bool
  deriving DecidableEq, Repr

/-- One article of the inner loop (lines 307-678): articles without a
title link are skipped (line 316); otherwise the body reaches the
`extract_organization` call at line 454, which evaluates `re.search`
on the `None` title; the raised `TypeError` is caught by the
per-article handler (line 676) and the article is skipped.  The
remainder of the body — everything the code would do with an actual
title string — is abstracted by the continuation `rest`, so the
theorems hold whatever that code would do. -/
def articleStep (rest : Article → String → ScrapeState → ScrapeState)
    (st : ScrapeState) (a : Article) : ScrapeState :=
  if !a.hasTitleLink then st
  else
    match reSearchArg grantInitTitle with
    | .error _ => st
    | .ok t => rest a t st

/-- One page of the outer loop: reset `page_has_valid_grants`
(line 305) and process every article. -/
def pageStep (rest : Article → String → ScrapeState → ScrapeState)
    (arts : List Article) (st : ScrapeState) : ScrapeState :=
  arts.foldl (articleStep rest) { st with pageHasValidGrants := false }

/-- The page loop (lines 290-693) over fetched pages: `none` is a page
whose fetch failed (handler at lines 684-693 continues with the next
page), `some arts` is a fetched page.  A fetched page with no articles
breaks (line 301); after processing a page, the loop breaks unless
`page_has_valid_grants` was set (line 680).  Returns the final state
and the number of pages examined. -/
def pageLoop (rest : Article → String → ScrapeState → ScrapeState) :
    List (Option (List Article)) → ScrapeState → ScrapeState × Nat
  | [], st => (st, 0)
  | p :: ps, st =>
    match p with
    | none =>
      let r := pageLoop rest ps st
      (r.1, r.2 + 1)
    | some arts =>
      if arts.isEmpty then (st, 1)
      else
        let st1 := pageStep rest arts st
        if st1.pageHasValidGrants then
          let r := pageLoop rest ps st1
          (r.1, r.2 + 1)
        else (st1, 1)

/-! ### Dates: `parse_date` (lines 13-55) and the deadline gate
(lines 595-647) -/

/-- A calendar date as produced by `datetime.date`. -/
structure PyDate where
  year : Nat
  month : Nat
  day : Nat
  deriving DecidableEq, Repr

/-- Strict comparison of dates (Python `date.__gt__` flipped). -/
def dateLtb (a b : PyDate) : Bool :=
  a.year < b.year ||
  (a.year = b.year && (a.month < b.month || (a.month = b.month && a.day < b.day)))

/-- Non-strict comparison of dates. -/
def dateLeb (a b : PyDate) : Bool := dateLtb a b || a = b

/-- Exact (case-sensitive) prefix removal. -/
def exactPrefixDrop : List Char → List Char → Option (List Char)
  | [], s => some s
  | _ :: _, [] => none
  | p :: ps, c :: cs => if p = c then exactPrefixDrop ps cs else none

/-- Zero-width characters stripped by the normalisation step
(`[​-‍﻿]`). -/
def isZeroWidth (c : Char) : Bool :=
  (0x200B ≤ c.toNat && c.toNat ≤ 0x200D) || c.toNat = 0xFEFF

/-- Match of `(\d+)(th|st|nd|rd)\b` (case-sensitive) anchored at the
current position: the greedy `\d+` takes the whole digit run (a
shorter split cannot be followed by a letter suffix), then one of the
four ordinal suffixes, then a word boundary. -/
def ordSuffixAt (s : List Char) : Option (List Char × List Char) :=
  let ds := s.takeWhile isPyDigit
  if ds.isEmpty then none
  else
    firstSome [['t', 'h'], ['s', 't'], ['n', 'd'], ['r', 'd']] fun suf =>
      match exactPrefixDrop suf (s.drop ds.length) with
      | some rest => if wordBoundaryAfter rest then some (ds, rest) else none
      | none => none

/-- Global substitution `re.sub(r'(\d+)(th|st|nd|rd)\b', r'\1', ·)`:
each match is replaced by its digits and scanning resumes after the
match. -/
def subOrd : Nat → List Char → List Char
  | 0, s => s
  | _ + 1, [] => []
  | fuel + 1, c :: t =>
    match ordSuffixAt (c :: t) with
    | some (ds, rest) => ds ++ subOrd fuel rest
    | none => c :: subOrd fuel t

/-- Global substitution `re.sub(r'\s+', ' ', ·)`: each whitespace run
collapses to a single space. -/
def collapseWs : Nat → List Char → List Char
  | 0, s => s
  | _ + 1, [] => []
  | fuel + 1, c :: t =>
    if isPySpace c then ' ' :: collapseWs fuel (t.dropWhile isPySpace)
    else c :: collapseWs fuel t

/-- The normalisation step of `parse_date` (lines 21-24): strip
surrounding whitespace, drop ordinal suffixes, drop zero-width and BOM
characters, collapse whitespace runs. -/
def normalizeDate (l : List Char) : List Char :=
  let l1 := stripWs l
  let l2 := subOrd (l1.length + 1) l1
  let l3 := l2.filter fun c => !isZeroWidth c
  collapseWs (l3.length + 1) l3

/-- Month names with indices, abbreviated (`%b`); all the same length,
so Python's longest-first regex ordering is the calendar ordering. -/
def monthAbbrList : List (String × Nat) :=
  [("Jan", 1), ("Feb", 2), ("Mar", 3), ("Apr", 4), ("May", 5), ("Jun", 6),
   ("Jul", 7), ("Aug", 8), ("Sep", 9), ("Oct", 10), ("Nov", 11), ("Dec", 12)]

/-- Full month names (`%B`) in the longest-first (ties: calendar
order) ordering Python's `_strptime` uses to build its regex. -/
def monthFullList : List (String × Nat) :=
  [("September", 9), ("February", 2), ("November", 11), ("December", 12),
   ("January", 1), ("October", 10), ("August", 8), ("March", 3),
   ("April", 4), ("June", 6), ("July", 7), ("May", 5)]

/-- Case-insensitive month-name match at the current position. -/
def monthCands (names : List (String × Nat)) (s : List Char) : List (Nat × List Char) :=
  names.filterMap fun nm =>
    match ciPrefixDrop nm.1.data s with
    | some x => some (nm.2, x.2)
    | none => none

/-- Candidates for `%d` in the order of Python's directive regex
`3[01]|[12]\d|0[1-9]|[1-9]`. -/
def dayCands (s : List Char) : List (Nat × List Char) :=
  (match s with
   | '3' :: c :: r => if c = '0' || c = '1' then [(30 + digitVal c, r)] else []
   | _ => []) ++
  (match s with
   | a :: c :: r =>
     if (a = '1' || a = '2') && isPyDigit c then [(digitVal a * 10 + digitVal c, r)] else []
   | _ => []) ++
  (match s with
   | '0' :: c :: r => if '1' ≤ c && c ≤ '9' then [(digitVal c, r)] else []
   | _ => []) ++
  (match s with
   | c :: r => if '1' ≤ c && c ≤ '9' then [(digitVal c, r)] else []
   | _ => [])

/-- Candidates for `%m` in the order of Python's directive regex
`1[0-2]|0[1-9]|[1-9]`. -/
def monCands (s : List Char) : List (Nat × List Char) :=
  (match s with
   | '1' :: c :: r => if c = '0' || c = '1' || c = '2' then [(10 + digitVal c, r)] else []
   | _ => []) ++
  (match s with
   | '0' :: c :: r => if '1' ≤ c && c ≤ '9' then [(digitVal c, r)] else []
   | _ => []) ++
  (match s with
   | c :: r => if '1' ≤ c && c ≤ '9' then [(digitVal c, r)] else []
   | _ => [])

/-- Candidates for `%y` (`\d\d`, with CPython's 1969/2068 pivot). -/
def y2Cands (s : List Char) : List (Nat × List Char) :=
  match s with
  | a :: b :: r =>
    if isPyDigit a && isPyDigit b then
      let v := digitVal a * 10 + digitVal b
      [((if v ≤ 68 then 2000 + v else 1900 + v), r)]
    else []
  | _ => []

/-- Candidates for `%Y` (`\d\d\d\d`). -/
def y4Cands (s : List Char) : List (Nat × List Char) :=
  match s with
  | a :: b :: c :: d :: r =>
    if isPyDigit a && isPyDigit b && isPyDigit c && isPyDigit d then
      [(digitVal a * 1000 + digitVal b * 100 + digitVal c * 10 + digitVal d, r)]
    else []
  | _ => []

/-- Tokens of the `strptime` format strings used by the scraper. -/
inductive FmtTok where
  | d
  | m
  | y2
  | y4
  | bAbbr
  | bFull
  | lit (c : Char)
  deriving DecidableEq, Repr

/-- Run a format over the input with backtracking, threading the
(year, month, day) accumulator (`strptime` defaults: 1900-1-1); the
whole input must be consumed. -/
def runFmt : List FmtTok → List Char → Nat × Nat × Nat → Option (Nat × Nat × Nat)
  | [], s, acc => if s.isEmpty then some acc else none
  | .lit c :: ts, s, acc =>
    (match s with
     | x :: r => if x = c then runFmt ts r acc else none
     | [] => none)
  | .d :: ts, s, acc =>
    firstSome (dayCands s) fun x => runFmt ts x.2 (acc.1, acc.2.1, x.1)
  | .m :: ts, s, acc =>
    firstSome (monCands s) fun x => runFmt ts x.2 (acc.1, x.1, acc.2.2)
  | .y2 :: ts, s, acc =>
    firstSome (y2Cands s) fun x => runFmt ts x.2 (x.1, acc.2.1, acc.2.2)
  | .y4 :: ts, s, acc =>
    firstSome (y4Cands s) fun x => runFmt ts x.2 (x.1, acc.2.1, acc.2.2)
  | .bAbbr :: ts, s, acc =>
    firstSome (monthCands monthAbbrList s) fun x => runFmt ts x.2 (acc.1, x.1, acc.2.2)
  | .bFull :: ts, s, acc =>
    firstSome (monthCands monthFullList s) fun x => runFmt ts x.2 (acc.1, x.1, acc.2.2)

/-- Gregorian leap year. -/
def isLeap (y : Nat) : Bool := y % 4 = 0 && (y % 100 ≠ 0 || y % 400 = 0)

/-- Days in a month. -/
def daysInMonth (y m : Nat) : Nat :=
  if m = 2 then (if isLeap y then 29 else 28)
  else if m = 4 || m = 6 || m = 9 || m = 11 then 30
  else 31

/-- Calendar validation performed by `datetime` construction. -/
def mkValidDate (y m d : Nat) : Option PyDate :=
  if 1 ≤ m && m ≤ 12 && 1 ≤ d && d ≤ daysInMonth y m then some ⟨y, m, d⟩ else none

/-- `datetime.strptime` for one format: directive match plus calendar
validation, `None` for Python's `ValueError`. -/
def strptimeFmt (toks : List FmtTok) (s : List Char) : Option PyDate :=
  match runFmt toks s (1900, 1, 1) with
  | some (y, m, d) => mkValidDate y m d
  | none => none

/-- The scraper's explicit format list (line 15-19), in source order,
duplicates included. -/
def scraperFormats : List (List FmtTok) :=
  [[.d, .lit '-', .bAbbr, .lit '-', .y2],
   [.d, .lit '-', .bAbbr, .lit '-', .y4],
   [.d, .lit ' ', .bAbbr, .lit ' ', .y4],
   [.d, .lit ' ', .bFull, .lit ' ', .y4],
   [.d, .lit '/', .m, .lit '/', .y2],
   [.d, .lit '/', .m, .lit '/', .y4],
   [.m, .lit '/', .d, .lit '/', .y2],
   [.m, .lit '/', .d, .lit '/', .y4],
   [.y4, .lit '-', .m, .lit '-', .d],
   [.d, .lit ' ', .bFull, .lit ' ', .y4],
   [.d, .lit ' ', .bAbbr, .lit ' ', .y4]]

/-- The explicit-format cascade of `parse_date` (lines 21-31):
normalise, then try each format in order.  The full `parse_date` only
consults its locale and `dateutil` fallbacks when every explicit
format has failed, so whenever this function returns `some`,
`parse_date` returns exactly that date. -/
def parseDateFormats (s : String) : Option PyDate :=
  let n := normalizeDate s.data
  firstSome scraperFormats fun f => strptimeFmt f n

/-- Two-digit zero padding of `strftime`. -/
def pad2 (n : Nat) : List Char := if n < 10 then '0' :: natRepr n else natRepr n

/-- `strftime("%d-%b-%y")` (line 601): zero-padded day, month
abbreviation, two-digit year. -/
def strftimeDBY (d : PyDate) : String :=
  String.mk (pad2 d.day ++ '-' ::
    ((monthAbbrList.map Prod.fst).getD (d.month - 1) "???").data ++ '-' ::
    pad2 (d.year % 100))

/-- `datetime.strptime(·, "%d-%b-%y")` as used by the final deadline
validation (line 642) — no normalisation step here. -/
def strptimeDBY (s : String) : Option PyDate :=
  strptimeFmt [.d, .lit '-', .bAbbr, .lit '-', .y2] s.data

/-- Lines 640-647: re-parse the stored deadline string with
`"%d-%b-%y"`; a `ValueError` or a value not strictly after the cutoff
skips the record. -/
def finalDeadlineCheck (s : String) (cutoff : PyDate) : Option String :=
  match strptimeDBY s with
  | some r => if dateLeb r cutoff then none else some s
  | none => none

/-- The deadline gate of the per-article pipeline.  Inputs are the
outcomes of the two extraction attempts: `detail` is `some p` when the
`Deadline:` regex matched on the detail page (with `p` the
`parse_date` result) and `none` when it did not; `listing` likewise
for the listing-page fallback (lines 595-633).  Control flow: a parsed
detail deadline not strictly after the cutoff skips the article; a
parse failure falls through to the listing fallback, which behaves the
same; a still-missing deadline skips (line 630); finally the stored
`"%d-%b-%y"` string is re-parsed and the article is skipped unless the
re-parse succeeds and is strictly after the cutoff (lines 640-647).
Returns the stored deadline string of a surviving record. -/
def deadlineStage (detail listing : Option (Option PyDate)) (cutoff : PyDate) :
    Option String :=
  match detail with
  | some (some d) =>
    if dateLtb cutoff d then finalDeadlineCheck (strftimeDBY d) cutoff else none
  | _ =>
    match listing with
    | some (some d) =>
      if dateLtb cutoff d then finalDeadlineCheck (strftimeDBY d) cutoff else none
    | _ => none

/-! ### Eligibility summariser (lines 531-592) -/

/-- The boundary class `[\s.:;]` of the heading regex. -/
def isSepClass (c : Char) : Bool := isPySpace c || c = '.' || c = ':' || c = ';'

/-- Word boundary after a token whose last character is `lastC`. -/
def boundaryAfterTok (lastC : Char) (rest : List Char) : Bool :=
  match rest with
  | [] => isPyWord lastC
  | c :: _ => isPyWord lastC != isPyWord c

/-- Match of `(?:^|[\s.:;])\s*(KW)\b` (`IGNORECASE | MULTILINE`)
anchored at the current position; `prev` is the preceding character
(`^` matches at the text start and, under `MULTILINE`, after a
newline).  Returns the offset of the captured keyword from this
position together with its original-casing text. -/
def kwAt (kw : List Char) (prev : Option Char) (s : List Char) :
    Option (Nat × List Char) :=
  firstSome ((if prev = none || prev = some '\n' then [((0 : Nat), s)] else []) ++
             (match s with
              | c :: t => if isSepClass c then [(1, t)] else []
              | [] => [])) fun st =>
    firstSome (starClassCands isPySpace st.2) fun sp =>
      match ciPrefixDrop kw sp.2 with
      | some (ktext, rest) =>
        match ktext.getLast? with
        | some lastC =>
          if boundaryAfterTok lastC rest then some (st.1 + sp.1.length, ktext) else none
        | none => none
      | none => none

/-- Leftmost search for the heading regex, returning the whole-match
start, the keyword start (`match.start(1)`) and the keyword text. -/
def kwSearch (kw : List Char) : Option Char → Nat → List Char →
    Option (Nat × Nat × List Char)
  | prev, pos, [] =>
    (kwAt kw prev []).map fun r => (pos, pos + r.1, r.2)
  | prev, pos, c :: t =>
    match kwAt kw prev (c :: t) with
    | some r => some (pos, pos + r.1, r.2)
    | none => kwSearch kw (some c) (pos + 1) t

/-- The ordered eligibility heading keywords (line 533). -/
def eligKeywords : List String :=
  ["Eligibility Criteria", "Who can apply?", "Eligible Applicants", "Eligibility"]

/-- The ordered end-marker headings (line 558). -/
def endMarkers : List String :=
  ["Funding Information", "How to Apply", "Application Process", "Award Information",
   "Prize Information", "Focus Areas", "Thematic Areas", "Objectives", "Benefits"]

/-- The keyword loop (lines 538-547): the first keyword of the list
that matches anywhere wins; returns `match.start(1)` and the matched
keyword text. -/
def eligKeywordHit (t : List Char) : Option (Nat × List Char) :=
  firstSome eligKeywords fun kw =>
    (kwSearch kw.data none 0 t).map fun r => (r.2.1, r.2.2)

/-- The end-marker bound (lines 557-568): the minimum over all markers
of the whole-match start of their leftmost occurrence, default the
text length. -/
def eligEndPos (t : List Char) : Nat :=
  endMarkers.foldl
    (fun acc mk =>
      match kwSearch mk.data none 0 t with
      | some r => min acc r.1
      | none => acc)
    t.length

/-- Index of the last `'.'` of a list (`str.rfind('.')` on a slice). -/
def lastDotIdx (l : List Char) : Option Nat :=
  match l.reverse.findIdx? (fun c => c = '.') with
  | some j => some (l.length - 1 - j)
  | none => none

/-- The sentinel eligibility value (lines 311 and 532). -/
def eligSentinel : String := "See official guidelines"

/-- The bounded eligibility segment for a keyword hit at index `idx`
with matched text `kw` (lines 552-570): the text after the keyword,
leading `[:\s]` stripped, bounded at the earliest end marker,
surrounding whitespace stripped. -/
def eligSegment (t : String) (idx : Nat) (kw : List Char) : List Char :=
  let e1 := stripWs (t.data.drop (idx + kw.length))
  let e2 := e1.dropWhile fun c => c = ':' || isPySpace c
  stripWs (e2.take (eligEndPos e2))

/-- The summary produced once a heading keyword has matched
(lines 552-589): if the bounded segment exceeds 300 characters, cut at
the last `'.'` before the limit when that dot lies past index 150,
else hard-cut at 300 and append `"..."`; a segment of five characters
or fewer falls back to the sentinel. -/
def eligSummaryHit (t : String) (idx : Nat) (kw : List Char) : String :=
  if (eligSegment t idx kw).length > 300 then
    match lastDotIdx ((eligSegment t idx kw).take 300) with
    | some i =>
      if 150 < i then String.mk ((eligSegment t idx kw).take (i + 1))
      else String.mk (stripWs ((eligSegment t idx kw).take 300) ++ "...".data)
    | none => String.mk (stripWs ((eligSegment t idx kw).take 300) ++ "...".data)
  else if (eligSegment t idx kw).length > 5 then String.mk (eligSegment t idx kw)
  else eligSentinel

/-- The eligibility summariser (lines 531-592): find a heading keyword
and summarise the bounded segment after it, else the sentinel. -/
def eligSummary (fullText : String) : String :=
  match eligKeywordHit fullText.data with
  | none => eligSentinel
  | some (idx, kwText) => eligSummaryHit fullText idx kwText

/-! ### Organisation post-processing (lines 456-462) and the batch
reconciliation pass (lines 753-832) -/

/-- ASCII upper-casing. -/
def upperChar (c : Char) : Char :=
  if 'a' ≤ c && c ≤ 'z' then Char.ofNat (c.toNat - 32) else c

/-- Match of the protocol/www fragment `(https?://|www\.)`
(`IGNORECASE`) anchored at the current position; returns the rest. -/
def protoAt (s : List Char) : Option (List Char) :=
  firstSome ["https://", "http://", "www."] fun w =>
    (ciPrefixDrop w.data s).map (·.2)

/-- Global deletion of protocol/www fragments
(`re.sub(r"(https?://|www\.)", "", ·)`). -/
def gsubProto : Nat → List Char → List Char
  | 0, s => s
  | _ + 1, [] => []
  | fuel + 1, c :: t =>
    match protoAt (c :: t) with
    | some rest => gsubProto fuel rest
    | none => c :: gsubProto fuel t

/-- The alternation `Trust|Foundation|Fund|Org(a?nization)?|Programme?`
flattened into Python's backtracking order, each candidate to be
followed by a word boundary. -/
def orgSuffixWords : List String :=
  ["Trust", "Foundation", "Fund", "Organization", "Orgnization", "Org",
   "Programme", "Programm"]

/-- Match of `\b(Trust|Foundation|Fund|Org(a?nization)?|Programme?)\b`
(`IGNORECASE`) anchored at the current position; all alternatives
start with a letter, so the leading `\b` requires a non-word previous
character. -/
def orgWordAt (prev : Option Char) (s : List Char) : Option (List Char × List Char) :=
  if (match prev with | some c => isPyWord c | none => false) then none
  else
    firstSome orgSuffixWords fun w =>
      match ciPrefixDrop w.data s with
      | some (wtext, rest) =>
        match wtext.getLast? with
        | some lastC =>
          if boundaryAfterTok lastC rest then some (wtext, rest) else none
        | none => none
      | none => none

/-- Global deletion of the generic organisation suffix words (the
`re.sub` of line 459), threading the previous character for the
leading `\b`. -/
def gsubOrgWords : Nat → Option Char → List Char → List Char
  | 0, _, s => s
  | _ + 1, _, [] => []
  | fuel + 1, prev, c :: t =>
    match orgWordAt prev (c :: t) with
    | some (w, rest) => gsubOrgWords fuel w.getLast? rest
    | none => c :: gsubOrgWords fuel (some c) t

/-- Python `str.strip(" -_./")`. -/
def stripCharSet (cs : List Char) (l : List Char) : List Char :=
  ((l.dropWhile (· ∈ cs)).reverse.dropWhile (· ∈ cs)).reverse

/-- The organisation sentinel. -/
def orgSentinel : String := "Unknown Organization"

/-- The in-loop organisation post-processing (lines 456-462): for a
truthy, non-sentinel organisation, strip protocol/www fragments, strip
generic suffix words, strip surrounding `" -_./"`, and replace any
result shorter than three characters with the sentinel. -/
def postProcessOrg (org : String) : String :=
  if org ≠ "" ∧ org ≠ "Unknown Organization" ∧ org ≠ "Organization Not Found" then
    let l1 := gsubProto (org.data.length + 1) org.data
    let l2 := gsubOrgWords (l1.length + 1) none l1
    let l3 := stripCharSet [' ', '-', '_', '.', '/'] l2
    if l3.length < 3 then orgSentinel else String.mk l3
  else org

/-- Python `str.split(sep)` with empty pieces preserved. -/
def pySplit (sep : Char) : List Char → List (List Char)
  | [] => [[]]
  | c :: t =>
    if c = sep then [] :: pySplit sep t
    else
      match pySplit sep t with
      | p :: ps => (c :: p) :: ps
      | [] => [[c]]

/-- Python `str.title()`: upper-case the first letter of each letter
run, lower-case the rest. -/
def titleCaseGo : Bool → List Char → List Char
  | _, [] => []
  | prevCased, c :: t =>
    if ('a' ≤ c && c ≤ 'z') || ('A' ≤ c && c ≤ 'Z') then
      (if prevCased then lowerChar c else upperChar c) :: titleCaseGo true t
    else c :: titleCaseGo false t

/-- Python `str.title()`. -/
def titleCase (l : List Char) : List Char := titleCaseGo false l

/-- The generic-label stoplist of `extract_org_from_url` (line 763). -/
def tldStop : List String := ["com", "org", "net", "gov", "edu", "co", "ac"]

/-- The source's `extract_org_from_url` (lines 753-776): take the
domain (third `/`-piece) of the URL; from its `.`-pieces take the
second-to-last; if it is not a generic label, hyphens become spaces
and the result is title-cased; if it is generic and more pieces exist,
the third-to-last piece is used the same way; otherwise the whole
domain is returned. -/
def extractOrgFromUrl (url : String) : Option String :=
  let parts := pySplit '/' url.data
  if parts.length > 2 then
    let domain := parts.getD 2 []
    let dparts := pySplit '.' domain
    if dparts.length ≥ 2 then
      let orgName := dparts.getD (dparts.length - 2) []
      if ¬ (String.mk (orgName.map lowerChar) ∈ tldStop) then
        some (String.mk (titleCase (orgName.map fun c => if c = '-' then ' ' else c)))
      else if dparts.length > 2 then
        some (String.mk (titleCase
          ((dparts.getD (dparts.length - 3) []).map fun c => if c = '-' then ' ' else c)))
      else some (String.mk domain)
    else some (String.mk domain)
  else none

/-- The batch reconciliation pass over one already-persisted record
(lines 779-785): only records whose organisation is the literal
`"Organization Not Found"` are touched; a truthy URL-derived name is
assigned directly — with no minimum-length check; the title-pattern
and keyword fallbacks that run when the URL yields nothing are
abstracted by `rest`. -/
def batchPassOrg (rest : GrantRec → String) (org : String) (g : GrantRec) : String :=
  if org = "Organization Not Found" then
    match extractOrgFromUrl g.applicationUrl with
    | some o => if o ≠ "" then o else rest g
    | none => rest g
  else org

/-! ## Helper lemmas -/

theorem firstSome_eq_some {l : List α} {f : α → Option β} {b : β}
    (h : firstSome l f = some b) : ∃ a ∈ l, f a = some b := by
  induction l with
  | nil => simp [firstSome] at h
  | cons a l ih =>
    unfold firstSome at h
    cases hfa : f a with
    | some b2 =>
      rw [hfa] at h
      exact ⟨a, List.mem_cons_self a l, by rw [hfa, Option.some_inj.mp h]⟩
    | none =>
      rw [hfa] at h
      obtain ⟨x, hx, hfx⟩ := ih h
      exact ⟨x, List.mem_cons_of_mem a hx, hfx⟩

theorem isPyDigit_digitChar (d : Nat) : isPyDigit (digitChar d) = true := by
  unfold digitChar
  split <;> decide

theorem digitVal_digitChar {d : Nat} (h : d < 10) : digitVal (digitChar d) = d := by
  interval_cases d <;> decide

theorem natDigitsRevGo_digits (fuel : Nat) :
    ∀ (n : Nat), ∀ c ∈ natDigitsRevGo fuel n, isPyDigit c = true := by
  induction fuel with
  | zero =>
    intro n c hc
    cases n <;> simp [natDigitsRevGo] at hc
  | succ fuel ih =>
    intro n c hc
    cases n with
    | zero => simp [natDigitsRevGo] at hc
    | succ m =>
      rw [natDigitsRevGo] at hc
      rcases List.mem_cons.mp hc with h | h
      · rw [h]; exact isPyDigit_digitChar _
      · exact ih ((m + 1) / 10) c h

theorem natDigitsRev_digits (n : Nat) : ∀ c ∈ natDigitsRev n, isPyDigit c = true :=
  natDigitsRevGo_digits n n

theorem natRepr_digits (n : Nat) : ∀ c ∈ natRepr n, isPyDigit c = true := by
  intro c hc
  unfold natRepr at hc
  split at hc
  · simp at hc; rw [hc]; decide
  · exact natDigitsRev_digits n c (List.mem_reverse.mp hc)

theorem natRepr_ne_nil (n : Nat) : natRepr n ≠ [] := by
  unfold natRepr
  split
  · simp
  · rename_i h
    match n, h with
    | m + 1, _ =>
      unfold natDigitsRev
      rw [natDigitsRevGo]
      simp

theorem natOfDigits_append_one (xs : List Char) (d : Char) :
    natOfDigits (xs ++ [d]) = natOfDigits xs * 10 + digitVal d := by
  unfold natOfDigits
  rw [List.foldl_append]
  rfl

theorem natOfDigits_natDigitsRevGo (fuel : Nat) :
    ∀ n : Nat, n ≤ fuel → natOfDigits (natDigitsRevGo fuel n).reverse = n := by
  induction fuel with
  | zero =>
    intro n hn
    have : n = 0 := Nat.le_zero.mp hn
    rw [this]
    rfl
  | succ fuel ih =>
    intro n hn
    cases n with
    | zero => rfl
    | succ m =>
      have hdiv : (m + 1) / 10 ≤ fuel := by
        have := Nat.div_lt_self (Nat.succ_pos m) (show 1 < 10 by norm_num)
        omega
      rw [natDigitsRevGo, List.reverse_cons, natOfDigits_append_one,
        ih ((m + 1) / 10) hdiv, digitVal_digitChar (Nat.mod_lt _ (by norm_num))]
      omega

theorem natOfDigits_natDigitsRev (n : Nat) :
    natOfDigits (natDigitsRev n).reverse = n :=
  natOfDigits_natDigitsRevGo n n (le_refl n)

theorem natOfDigits_natRepr (n : Nat) : natOfDigits (natRepr n) = n := by
  unfold natRepr
  split
  · rename_i h; rw [h]; decide
  · exact natOfDigits_natDigitsRev n

theorem takeWhile_append_all {p : Char → Bool} {xs : List Char} (ys : List Char)
    (h : ∀ c ∈ xs, p c = true) :
    (xs ++ ys).takeWhile p = xs ++ ys.takeWhile p := by
  induction xs with
  | nil => simp
  | cons a xs ih =>
    simp only [List.cons_append, List.takeWhile_cons]
    rw [h a (List.mem_cons_self a xs), ih fun c hc => h c (List.mem_cons_of_mem a hc)]
    simp

theorem groups3_comma_or_nil (l : List Char) :
    groups3 l = [] ∨ ∃ t, groups3 l = ',' :: t := by
  match l with
  | [] => left; rfl
  | [a] => left; rfl
  | [a, b] => left; rfl
  | a :: b :: c :: rest => right; exact ⟨a :: b :: c :: groups3 rest, rfl⟩

theorem groups3_groupedTail :
    ∀ (n : Nat) (l : List Char), l.length ≤ n → (∀ c ∈ l, isPyDigit c = true) →
      l.length % 3 = 0 → groupedTail (groups3 l) = true := by
  intro n
  induction n with
  | zero =>
    intro l hl _ _
    have : l = [] := List.length_eq_zero.mp (Nat.le_zero.mp hl)
    rw [this]; rfl
  | succ n ih =>
    intro l hl hd h3
    match l with
    | [] => rfl
    | [a] => simp at h3
    | [a, b] => simp at h3
    | a :: b :: c :: rest =>
      have hda := hd a (by simp)
      have hdb := hd b (by simp)
      have hdc := hd c (by simp)
      have hrest : ∀ x ∈ rest, isPyDigit x = true := fun x hx => hd x (by simp [hx])
      have hlen : rest.length % 3 = 0 := by
        simp only [List.length_cons] at h3
        omega
      have hle : rest.length ≤ n := by
        simp only [List.length_cons] at hl
        omega
      show groupedTail (',' :: a :: b :: c :: groups3 rest) = true
      simp only [groupedTail]
      rw [hda, hdb, hdc, ih rest hle hrest hlen]
      rfl

theorem groupedDigits_commaGroup (ds : List Char) (hne : ds ≠ [])
    (hd : ∀ c ∈ ds, isPyDigit c = true) :
    groupedDigits (commaGroup ds) = true := by
  have hlen : 1 ≤ ds.length := by
    cases ds with
    | nil => exact absurd rfl hne
    | cons a t => simp
  unfold commaGroup
  show groupedDigits
    (ds.take (if ds.length % 3 = 0 then 3 else ds.length % 3) ++
      groups3 (ds.drop (if ds.length % 3 = 0 then 3 else ds.length % 3))) = true
  set k := if ds.length % 3 = 0 then 3 else ds.length % 3 with hk
  have hk1 : 1 ≤ k := by rw [hk]; split <;> omega
  have hk3 : k ≤ 3 := by rw [hk]; split <;> omega
  have hkle : k ≤ ds.length := by rw [hk]; split <;> omega
  have htake : ∀ c ∈ ds.take k, isPyDigit c = true :=
    fun c hc => hd c (List.mem_of_mem_take hc)
  have htlen : (ds.take k).length = k := by
    rw [List.length_take]
    omega
  have htw : (ds.take k ++ groups3 (ds.drop k)).takeWhile isPyDigit = ds.take k := by
    rw [takeWhile_append_all _ htake]
    rcases groups3_comma_or_nil (ds.drop k) with h | ⟨t, h⟩
    · rw [h]; simp
    · rw [h, List.takeWhile_cons]
      have hcm : isPyDigit ',' = false := by decide
      simp [hcm]
  have hdrop : (ds.take k ++ groups3 (ds.drop k)).drop k = groups3 (ds.drop k) :=
    List.drop_left' htlen
  have hdlen : (ds.drop k).length % 3 = 0 := by
    rw [List.length_drop, hk]
    split <;> omega
  simp only [groupedDigits]
  rw [htw, htlen, hdrop,
    groups3_groupedTail (ds.drop k).length _ (le_refl _)
      (fun c hc => hd c (List.mem_of_mem_drop hc)) hdlen]
  simp only [Bool.and_true, Bool.and_eq_true, decide_eq_true_eq]
  exact ⟨hk1, hk3⟩

theorem ciPrefixDrop_lower :
    ∀ (p s pre rest : List Char), ciPrefixDrop p s = some (pre, rest) →
      pre.map lowerChar = p.map lowerChar := by
  intro p
  induction p with
  | nil =>
    intro s pre rest h
    unfold ciPrefixDrop at h
    simp at h
    rw [h.1]
  | cons pc ps ih =>
    intro s pre rest h
    cases s with
    | nil => simp [ciPrefixDrop] at h
    | cons c cs =>
      unfold ciPrefixDrop at h
      by_cases hc : ciChar pc c
      · rw [if_pos hc] at h
        cases hrec : ciPrefixDrop ps cs with
        | some pr =>
          rw [hrec] at h
          obtain ⟨pre2, rest2⟩ := pr
          simp at h
          rw [← h.1]
          simp only [List.map_cons]
          rw [ih cs pre2 rest2 hrec]
          unfold ciChar at hc
          rw [of_decide_eq_true hc]
        | none => rw [hrec] at h; simp at h
      · rw [if_neg hc] at h; simp at h

theorem curCands_tok {s : List Char} {x : List Char × List Char}
    (h : x ∈ curCands s) : isCurrencyTok x.1 = true := by
  unfold curCands at h
  rcases List.mem_append.mp h with h1 | h2
  · cases s with
    | nil => simp at h1
    | cons c rest =>
      simp at h1
      obtain ⟨hcond, hx⟩ := h1
      rw [hx]
      rcases hcond with (hd | hd) | hd <;> simp [isCurrencyTok, hd]
  · obtain ⟨code, hcode, hdrop⟩ := List.mem_filterMap.mp h2
    obtain ⟨pre, rest⟩ := x
    have hlow := ciPrefixDrop_lower code.data s pre rest hdrop
    fin_cases hcode
    · have hu : pre.map lowerChar = "usd".data := by rw [hlow]; decide
      simp [isCurrencyTok, hu]
    · have hu : pre.map lowerChar = "eur".data := by rw [hlow]; decide
      simp [isCurrencyTok, hu]
    · have hu : pre.map lowerChar = "gbp".data := by rw [hlow]; decide
      simp [isCurrencyTok, hu]

theorem optCurCands_tok {s : List Char} {oc : Option (List Char)} {r : List Char}
    (h : (oc, r) ∈ optCapCands curCands s) :
    ∀ x, oc = some x → isCurrencyTok x = true := by
  intro x hx
  unfold optCapCands at h
  rcases List.mem_append.mp h with h1 | h2
  · obtain ⟨y, hy, hmap⟩ := List.mem_map.mp h1
    have h1e : some y.1 = oc := congrArg Prod.fst hmap
    rw [hx] at h1e
    rw [← Option.some_inj.mp h1e]
    exact curCands_tok hy
  · simp at h2
    simp [h2.1] at hx

theorem uptoAt_cur {s : List Char}
    {c1 : Option (List Char)} {n : List Char} {m c2 : Option (List Char)}
    (h : uptoAt s = some (c1, n, m, c2)) :
    (∀ x, c1 = some x → isCurrencyTok x = true) ∧
    (∀ x, c2 = some x → isCurrencyTok x = true) := by
  unfold uptoAt at h
  obtain ⟨k, hk, h⟩ := firstSome_eq_some h
  obtain ⟨a, ha, h⟩ := firstSome_eq_some h
  obtain ⟨x1, hx1, h⟩ := firstSome_eq_some h
  obtain ⟨b, hb, h⟩ := firstSome_eq_some h
  obtain ⟨nn, hnn, h⟩ := firstSome_eq_some h
  obtain ⟨mm, hmm, h⟩ := firstSome_eq_some h
  obtain ⟨cc, hcc, h⟩ := firstSome_eq_some h
  obtain ⟨x2, hx2, h⟩ := firstSome_eq_some h
  have heq := Option.some_inj.mp h
  have h1 : x1.1 = c1 := congrArg (fun p => p.1) heq
  have h4 : x2.1 = c2 := congrArg (fun p => p.2.2.2) heq
  constructor
  · intro x hx
    exact optCurCands_tok (show (x1.1, x1.2) ∈ optCapCands curCands a.2 from hx1)
      x (by rw [h1, hx])
  · intro x hx
    exact optCurCands_tok (show (x2.1, x2.2) ∈ optCapCands curCands cc.2 from hx2)
      x (by rw [h4, hx])

theorem searchUpto_exists {s : List Char}
    {g : Option (List Char) × List Char × Option (List Char) × Option (List Char)}
    (h : searchUpto s = some g) : ∃ t, uptoAt t = some g := by
  induction s with
  | nil => exact ⟨[], h⟩
  | cons c t ih =>
    rw [searchUpto] at h
    cases hu : uptoAt (c :: t) with
    | some g2 =>
      rw [hu] at h
      exact ⟨c :: t, by rw [hu, Option.some_inj.mp h]⟩
    | none =>
      rw [hu] at h
      exact ih h

theorem searchUpto_cur {s : List Char}
    {c1 : Option (List Char)} {n : List Char} {m c2 : Option (List Char)}
    (h : searchUpto s = some (c1, n, m, c2)) :
    (∀ x, c1 = some x → isCurrencyTok x = true) ∧
    (∀ x, c2 = some x → isCurrencyTok x = true) := by
  obtain ⟨t, ht⟩ := searchUpto_exists h
  exact uptoAt_cur ht

theorem stdRangeAt_shape {s : List Char} {gs : List (Option (List Char))}
    (h : stdRangeAt s = some gs) :
    ∃ c1 n1 m1 c2 n2 m2, gs = [c1, some n1, m1, c2, some n2, m2] := by
  unfold stdRangeAt at h
  obtain ⟨x1, _, h⟩ := firstSome_eq_some h
  obtain ⟨a, _, h⟩ := firstSome_eq_some h
  obtain ⟨n1, _, h⟩ := firstSome_eq_some h
  obtain ⟨m1, _, h⟩ := firstSome_eq_some h
  obtain ⟨b, _, h⟩ := firstSome_eq_some h
  obtain ⟨d, _, h⟩ := firstSome_eq_some h
  obtain ⟨e, _, h⟩ := firstSome_eq_some h
  obtain ⟨x2, _, h⟩ := firstSome_eq_some h
  obtain ⟨f, _, h⟩ := firstSome_eq_some h
  obtain ⟨n2, _, h⟩ := firstSome_eq_some h
  obtain ⟨m2, _, h⟩ := firstSome_eq_some h
  exact ⟨x1.1, n1.1, m1.1, x2.1, n2.1, m2.1, (Option.some_inj.mp h).symm⟩

theorem searchStdRange_shape {s : List Char} {gs : List (Option (List Char))}
    (h : searchStdRange s = some gs) :
    ∃ c1 n1 m1 c2 n2 m2, gs = [c1, some n1, m1, c2, some n2, m2] := by
  induction s with
  | nil => exact stdRangeAt_shape h
  | cons c t ih =>
    rw [searchStdRange] at h
    cases hu : stdRangeAt (c :: t) with
    | some g2 =>
      rw [hu] at h
      exact Option.some_inj.mp h ▸ stdRangeAt_shape hu
    | none =>
      rw [hu] at h
      exact ih h

theorem rangeGroupsLogic_six (c1 : Option (List Char)) (n1 : List Char)
    (m1 c2 : Option (List Char)) (n2 : List Char) (m2 : Option (List Char)) :
    rangeGroupsLogic [c1, some n1, m1, c2, some n2, m2] = .error .valueError := rfl

theorem intLiteral_natRepr (n : Nat) : intLiteral (natRepr n) = true := by
  unfold intLiteral
  have h1 : (natRepr n).isEmpty = false := by
    cases hn : natRepr n with
    | nil => exact absurd hn (natRepr_ne_nil n)
    | cons a t => rfl
  have h2 : (natRepr n).all isPyDigit = true := List.all_eq_true.mpr (natRepr_digits n)
  simp [h1, h2]

theorem intLiteral_commaGroup_natRepr (n : Nat) :
    intLiteral (commaGroup (natRepr n)) = true := by
  unfold intLiteral
  rw [groupedDigits_commaGroup (natRepr n) (natRepr_ne_nil n) (natRepr_digits n)]
  simp

theorem isCurrencyAmount_take1 {l : List Char} (h3 : 1 ≤ l.length)
    (h1 : isCurrencyTok (l.take 1) = true) (h2 : intLiteral (l.drop 1) = true) :
    isCurrencyAmount (.vstr (String.mk l)) = true := by
  unfold isCurrencyAmount
  have h2t : intLiteral l.tail = true := by rw [← List.drop_one]; exact h2
  simp [h1, h2t, h3]

theorem isCurrencyAmount_take3 {l : List Char} (h3 : 3 ≤ l.length)
    (h1 : isCurrencyTok (l.take 3) = true) (h2 : intLiteral (l.drop 3) = true) :
    isCurrencyAmount (.vstr (String.mk l)) = true := by
  unfold isCurrencyAmount
  simp [h1, h2, h3]

theorem isCurrencyAmount_sym_group {c : Char} (hc : isCurrencyTok [c] = true) (n : Nat) :
    isCurrencyAmount (.vstr (String.mk (c :: commaGroup (natRepr n)))) = true := by
  apply isCurrencyAmount_take1
  · simp
  · simpa using hc
  · simpa using intLiteral_commaGroup_natRepr n

theorem isCurrencyAmount_tok_digits {cur : List Char} (htok : isCurrencyTok cur = true)
    (v : Nat) : isCurrencyAmount (.vstr (String.mk (cur ++ natRepr v))) = true := by
  have hcases : cur = ['$'] ∨ cur = ['€'] ∨ cur = ['£'] ∨
      cur.map lowerChar = "usd".data ∨ cur.map lowerChar = "eur".data ∨
      cur.map lowerChar = "gbp".data := by
    unfold isCurrencyTok at htok
    have := htok
    simp only [Bool.or_eq_true, decide_eq_true_eq] at this
    tauto
  have hsym : ∀ c : Char, cur = [c] → isCurrencyTok [c] = true →
      isCurrencyAmount (.vstr (String.mk (cur ++ natRepr v))) = true := by
    intro c hc htokc
    rw [hc]
    apply isCurrencyAmount_take1
    · simp
    · simpa using htokc
    · simpa using intLiteral_natRepr v
  have hcode : cur.length = 3 →
      isCurrencyAmount (.vstr (String.mk (cur ++ natRepr v))) = true := by
    intro hlen
    apply isCurrencyAmount_take3
    · simp [hlen]
    · rw [List.take_append_of_le_length (by omega), List.take_of_length_le (by omega)]
      exact htok
    · rw [List.drop_append_of_le_length (by omega), List.drop_of_length_le (by omega)]
      simpa using intLiteral_natRepr v
  rcases hcases with h | h | h | h | h | h
  · exact hsym '$' h (by decide)
  · exact hsym '€' h (by decide)
  · exact hsym '£' h (by decide)
  · exact hcode (by have := congrArg List.length h; simpa using this)
  · exact hcode (by have := congrArg List.length h; simpa using this)
  · exact hcode (by have := congrArg List.length h; simpa using this)

theorem startsWithSym_cases {l : List Char} (h : startsWithSym l = true) :
    ∃ c t, l = c :: t ∧ (c = '$' ∨ c = '£' ∨ c = '€') := by
  cases l with
  | nil => simp [startsWithSym] at h
  | cons c t =>
    refine ⟨c, t, rfl, ?_⟩
    simp only [startsWithSym, Bool.or_eq_true, decide_eq_true_eq] at h
    tauto

theorem cleanAmountValue_vstr_cases (s : String) :
    cleanAmountValue (.vstr s) = .vnone ∨
    (∃ n, cleanAmountValue (.vstr s) = .vstr (String.mk ('$' :: commaGroup (natRepr n)))) ∨
    (∃ c n, (c = '$' ∨ c = '£' ∨ c = '€') ∧
      cleanAmountValue (.vstr s) = .vstr (String.mk (c :: commaGroup (natRepr n)))) ∨
    cleanAmountValue (.vstr s) = .vstr s := by
  simp only [cleanAmountValue]
  by_cases h0 : s = ""
  · rw [if_pos h0]
    left; rfl
  · rw [if_neg h0]
    by_cases hall : s.data.all isPyDigit = true
    · rw [if_pos hall]
      right; left
      exact ⟨natOfDigits s.data, rfl⟩
    · rw [if_neg hall]
      by_cases hsw : startsWithSym s.data = true
      · rw [if_pos hsw]
        cases hf : pyFloatParts (s.data.filter fun ch => isPyDigit ch || ch = '.') with
        | some p =>
          obtain ⟨ip, fr, d⟩ := p
          right; right; left
          obtain ⟨c, t, hct, hcs⟩ := startsWithSym_cases hsw
          refine ⟨s.data.headD ' ', roundHalfEven ip fr d, ?_, rfl⟩
          rw [hct]
          exact hcs
        | none =>
          right; right; right; rfl
      · rw [if_neg hsw]
        right; right; right; rfl

theorem cleanAmountValue_tok_digits {cur : List Char} (htok : isCurrencyTok cur = true)
    (v : Nat) :
    cleanAmountValue (.vstr (String.mk (cur ++ natRepr v))) = .vnone ∨
    isCurrencyAmount (cleanAmountValue (.vstr (String.mk (cur ++ natRepr v)))) = true := by
  rcases cleanAmountValue_vstr_cases (String.mk (cur ++ natRepr v)) with h | ⟨n, h⟩ | ⟨c, n, hc, h⟩ | h
  · exact Or.inl h
  · right
    rw [h]
    exact isCurrencyAmount_sym_group (by decide) n
  · right
    rw [h]
    apply isCurrencyAmount_sym_group _ n
    rcases hc with h1 | h1 | h1 <;> simp [isCurrencyTok, h1]
  · right
    rw [h]
    exact isCurrencyAmount_tok_digits htok v

theorem singlesResult_fst (s : List Char) :
    (singlesResult s).1 = .vnone ∨ ∃ n, (singlesResult s).1 = .vint n := by
  unfold singlesResult
  cases pickMax (pooledCands s) with
  | none => left; rfl
  | some c => right; exact ⟨c.val, rfl⟩

theorem uptoAndSingles_fst (s : List Char) :
    (uptoAndSingles s).1 = .vnone ∨ (∃ n, (uptoAndSingles s).1 = .vint n) ∨
    ∃ cur v, (uptoAndSingles s).1 = .vstr (String.mk (cur ++ natRepr v)) ∧
      isCurrencyTok cur = true := by
  unfold uptoAndSingles
  split
  · rename_i c1 n m c2 hu
    split
    · rename_i v hcc
      right; right
      refine ⟨(c1 <|> c2).getD ['$'], v, rfl, ?_⟩
      obtain ⟨hc1, hc2⟩ := searchUpto_cur hu
      cases c1 with
      | some x => simpa using hc1 x rfl
      | none =>
        cases c2 with
        | some y => simpa using hc2 y rfl
        | none => decide
    · rcases singlesResult_fst s with h | ⟨k, h⟩
      · left; exact h
      · right; left; exact ⟨k, h⟩
  · rcases singlesResult_fst s with h | ⟨k, h⟩
    · left; exact h
    · right; left; exact ⟨k, h⟩

theorem branchMangled_shape {s : List Char} {r : PyVal × PyVal}
    (h : branchMangled s = some r) :
    ∃ v, r.1 = .vstr (String.mk ('$' :: natRepr v)) := by
  unfold branchMangled at h
  split at h
  · split at h
    · injection h with h2
      exact ⟨_, (congrArg Prod.fst h2).symm⟩
    · cases h
  · cases h

theorem extractAmount_ok_shape {text : String} {a b : PyVal}
    (h : extractAmount text = .ok (a, b)) :
    a = .vnone ∨ (∃ n, a = .vint n) ∨
    ∃ cur v, a = .vstr (String.mk (cur ++ natRepr v)) ∧ isCurrencyTok cur = true := by
  unfold extractAmount at h
  split at h
  · rename_i r hm
    obtain ⟨v, hv⟩ := branchMangled_shape hm
    injection h with h2
    subst h2
    right; right
    exact ⟨['$'], v, hv, by decide⟩
  · split at h
    · rename_i gs hs
      obtain ⟨c1, n1, m1, c2, n2, m2, hgs⟩ := searchStdRange_shape hs
      rw [hgs, rangeGroupsLogic_six] at h
      simp at h
    · injection h with h2
      have hfst := uptoAndSingles_fst text.data
      rw [h2] at hfst
      simpa using hfst

theorem saveCleanupAmount_eq (a : PyVal) :
    saveCleanupAmount a = if pyTruthy a then cleanAmountValue a else a := by
  unfold saveCleanupAmount
  cases a with
  | vnone => rfl
  | vint n => rfl
  | vstr s => rfl

theorem dateLtb_of_not_leb {a b : PyDate} (h : dateLeb a b = false) :
    dateLtb b a = true := by
  obtain ⟨y1, m1, d1⟩ := a
  obtain ⟨y2, m2, d2⟩ := b
  simp only [dateLeb, dateLtb, PyDate.mk.injEq, Bool.or_eq_false_iff, Bool.or_eq_true,
    decide_eq_false_iff_not, decide_eq_true_eq, Bool.and_eq_false_iff, Bool.and_eq_true,
    not_and, not_or, not_lt] at *
  omega

theorem articleStep_id (rest : Article → String → ScrapeState → ScrapeState)
    (st : ScrapeState) (a : Article) : articleStep rest st a = st := by
  unfold articleStep
  split <;> rfl

theorem pageStep_eq (rest : Article → String → ScrapeState → ScrapeState)
    (arts : List Article) (st : ScrapeState) :
    pageStep rest arts st = { st with pageHasValidGrants := false } := by
  unfold pageStep
  generalize { st with pageHasValidGrants := false } = s0
  induction arts generalizing s0 with
  | nil => rfl
  | cons a t ih => rw [List.foldl_cons, articleStep_id]; exact ih s0

theorem runDedup_countUrl (cs : List GrantRec) :
    ∀ (st : DedupState) (u : String),
      countUrl (runDedup st cs).grants u =
        countUrl st.grants u +
          (if u ∈ st.urls then 0
           else min 1 (cs.countP fun c => c.applicationUrl = u)) := by
  induction cs with
  | nil =>
    intro st u
    simp [runDedup, countUrl]
  | cons c cs ih =>
    intro st u
    have hstep : runDedup st (c :: cs) = runDedup (dedupStep st c) cs := rfl
    rw [hstep, ih]
    unfold dedupStep
    by_cases hc : c.applicationUrl ∈ st.urls
    · rw [if_pos hc]
      by_cases hu : u = c.applicationUrl
      · subst hu
        rw [if_pos hc, if_pos hc]
      · have hu2 : ¬ c.applicationUrl = u := fun h => hu h.symm
        have hcount : (c :: cs).countP (fun g => g.applicationUrl = u) =
            cs.countP fun g => g.applicationUrl = u := by
          rw [List.countP_cons]
          simp [hu2]
        rw [hcount]
    · rw [if_neg hc]
      by_cases hu : u = c.applicationUrl
      · subst hu
        have h1 : c.applicationUrl ∈ st.urls ++ [c.applicationUrl] := by simp
        rw [if_pos h1, if_neg hc]
        have h2 : countUrl (st.grants ++ [c]) c.applicationUrl =
            countUrl st.grants c.applicationUrl + 1 := by
          unfold countUrl
          rw [List.countP_append]
          simp
        have h3 : (c :: cs).countP (fun g => g.applicationUrl = c.applicationUrl) =
            cs.countP (fun g => g.applicationUrl = c.applicationUrl) + 1 := by
          rw [List.countP_cons]
          simp
        rw [h2, h3]
        omega
      · have hu2 : ¬ c.applicationUrl = u := fun h => hu h.symm
        have h1 : (u ∈ st.urls ++ [c.applicationUrl]) ↔ u ∈ st.urls := by
          simp [hu]
        have h2 : countUrl (st.grants ++ [c]) u = countUrl st.grants u := by
          unfold countUrl
          rw [List.countP_append]
          simp [hu2]
        have h3 : (c :: cs).countP (fun g => g.applicationUrl = u) =
            cs.countP fun g => g.applicationUrl = u := by
          rw [List.countP_cons]
          simp [hu2]
        rw [h2, h3]
        by_cases hm : u ∈ st.urls
        · rw [if_pos hm, if_pos (h1.mpr hm)]
        · rw [if_neg hm, if_neg (fun hx => hm (h1.mp hx))]

/-! ## Claim theorems -/

/-- C1: the claim states that for the input
"Grants of $10,000 - $50,000 are available" `extract_amount` returns
`"$50000"` via the standard-range matcher.  On the code, the
standard-range regex matches but carries exactly six capture groups,
while line 162 unpacks `match.groups()` into seven variables, so the
call raises `ValueError` (converted into an article skip by the
handler at line 676) instead of returning a value. -/
theorem C1_range_input_raises :
    extractAmount "Grants of $10,000 - $50,000 are available" = .error .valueError ∧
    (searchStdRange "Grants of $10,000 - $50,000 are available".data).map List.length =
      some 6 :=
  ⟨rfl, rfl⟩

/-- C2: every article either lacks a title link (skipped at line 316)
or reaches `extract_organization` at line 454 with `grant['title']`
still `None`, where `re.search` raises `TypeError`, caught by the
per-article handler.  Hence, whatever the rest of the article body
(`rest`) would do, no run changes the grants collection or the URL
set, `page_has_valid_grants` stays `False`, and the page loop stops
after the first successfully fetched page. -/
theorem C2_no_grants_ever_appended :
    ∀ (rest : Article → String → ScrapeState → ScrapeState)
      (pages : List (Option (List Article))) (st : ScrapeState),
      (pageLoop rest pages st).1.grants = st.grants ∧
      (pageLoop rest pages st).1.urls = st.urls ∧
      (pageLoop rest pages st).2 = min pages.length (pages.findIdx Option.isSome + 1) ∧
      reSearchArg grantInitTitle = .error .typeError := by
  intro rest pages
  induction pages with
  | nil => intro st; exact ⟨rfl, rfl, by simp [pageLoop], rfl⟩
  | cons p ps ih =>
    intro st
    cases p with
    | none =>
      obtain ⟨h1, h2, h3, _⟩ := ih st
      refine ⟨h1, h2, ?_, rfl⟩
      show (pageLoop rest ps st).2 + 1 = _
      rw [h3, List.findIdx_cons]
      simp only [Option.isSome_none, cond_false, List.length_cons]
      omega
    | some arts =>
      by_cases he : arts.isEmpty
      · refine ⟨?_, ?_, ?_, rfl⟩ <;>
          simp [pageLoop, he, List.findIdx_cons]
      · have hps := pageStep_eq rest arts st
        have hred : pageLoop rest (some arts :: ps) st =
            (pageStep rest arts st, 1) := by
          show (if arts.isEmpty then (st, 1) else _) = _
          rw [if_neg he, hps]
          rfl
        rw [hred, hps]
        refine ⟨rfl, rfl, ?_, rfl⟩
        rw [List.findIdx_cons]
        simp

/-- C3: the claim states that `extract_amount` is non-fatal for every
input.  On the code, any text matched by the standard-range pattern —
for instance "$1,000 - $2,000" — raises `ValueError` at line 162
because the pattern's six capture groups are unpacked into seven
variables; the `re.error` handler at lines 109-111 also returns
`(None, None)` without consulting later matchers instead of degrading
only the one matcher. -/
theorem C3_range_syntax_raises :
    extractAmount "$1,000 - $2,000" = .error .valueError ∧
    (searchStdRange "$1,000 - $2,000".data).map List.length = some 6 :=
  ⟨rfl, rfl⟩

/-- C4: the deduplication gate appends a candidate and registers its
`applicationUrl` immediately, so a run over any candidate list starting
from the startup-seeded state persists at most one new record per URL:
the final number of records with URL `u` is the loaded count plus one
exactly when `u` is new to the store and occurs among the candidates —
independent of candidate order — and plus zero when `u` was already
loaded. -/
theorem C4_dedup_at_most_once :
    ∀ (loaded cs : List GrantRec) (u : String),
      countUrl (runDedup (seedState loaded) cs).grants u =
        countUrl loaded u +
          (if u ∈ (seedState loaded).urls then 0
           else min 1 (cs.countP fun c => c.applicationUrl = u)) := by
  intro loaded cs u
  exact runDedup_countUrl cs (seedState loaded) u

theorem dateLtb_irrefl (d : PyDate) : dateLtb d d = false := by
  obtain ⟨y, m, dd⟩ := d
  simp [dateLtb]

/-- C5: a record that survives the deadline stage stores a deadline
string whose `"%d-%b-%y"` parse is strictly after the cutoff; a
candidate whose parsed deadline equals the cutoff exactly, or is
earlier, or whose deadline text cannot be parsed at all, is rejected
and never materialised. -/
theorem C5_deadline_strictly_after_cutoff :
    (∀ (detail listing : Option (Option PyDate)) (cutoff : PyDate) (s : String),
      deadlineStage detail listing cutoff = some s →
        ∃ r, strptimeDBY s = some r ∧ dateLtb cutoff r = true) ∧
    (∀ (listing : Option (Option PyDate)) (cutoff : PyDate),
      deadlineStage (some (some cutoff)) listing cutoff = none) ∧
    (∀ (listing : Option (Option PyDate)) (cutoff d : PyDate),
      dateLtb cutoff d = false →
        deadlineStage (some (some d)) listing cutoff = none) ∧
    (∀ cutoff : PyDate, deadlineStage (some none) (some none) cutoff = none) ∧
    (∀ cutoff : PyDate, deadlineStage none none cutoff = none) := by
  have key : ∀ (d cutoff : PyDate) (s : String),
      finalDeadlineCheck (strftimeDBY d) cutoff = some s →
      ∃ r, strptimeDBY s = some r ∧ dateLtb cutoff r = true := by
    intro d cutoff s hf
    unfold finalDeadlineCheck at hf
    split at hf
    · rename_i r hp
      split at hf
      · cases hf
      · rename_i hle
        have hs : strftimeDBY d = s := Option.some_inj.mp hf
        refine ⟨r, by rw [← hs]; exact hp, ?_⟩
        simp only [Bool.not_eq_true] at hle
        exact dateLtb_of_not_leb hle
    · cases hf
  refine ⟨?_, ?_, ?_, fun _ => rfl, fun _ => rfl⟩
  · intro detail listing cutoff s h
    unfold deadlineStage at h
    split at h
    · rename_i d
      split at h
      · exact key _ _ _ h
      · cases h
    · split at h
      · rename_i d
        split at h
        · exact key _ _ _ h
        · cases h
      · cases h
  · intro listing cutoff
    show (if dateLtb cutoff cutoff then _ else none) = none
    rw [dateLtb_irrefl, if_neg (by simp)]
  · intro listing cutoff d hlt
    show (if dateLtb cutoff d then _ else none) = none
    rw [hlt, if_neg (by simp)]

/-- Witness for C5: a detail-page deadline of 3 April 2025 against the
cutoff 2 April 2025 is persisted as "03-Apr-25", whose re-parse is
strictly after the cutoff. -/
theorem C5_deadline_witness :
    deadlineStage (some (some ⟨2025, 4, 3⟩)) none ⟨2025, 4, 2⟩ = some "03-Apr-25" ∧
    ∃ r, strptimeDBY "03-Apr-25" = some r ∧ dateLtb ⟨2025, 4, 2⟩ r = true :=
  ⟨rfl, C5_deadline_strictly_after_cutoff.1 (some (some ⟨2025, 4, 3⟩)) none
    ⟨2025, 4, 2⟩ "03-Apr-25" rfl⟩

/-- Counterexample for C6: for the text "award of $0" the single-amount
branch returns the bare integer 0, assigned to `grant['amount']`; the
save-time cleanup is guarded by Python truthiness (line 736), which the
integer 0 fails, so the persisted amount is the bare number 0 — non-null
but not a currency marker followed by an integer, contradicting the
claim as stated. -/
theorem C6_zero_amount_counterexample :
    finalAmount "award of $0" = some (.vint 0) ∧
    (PyVal.vint 0 ≠ PyVal.vnone) ∧ isCurrencyAmount (.vint 0) = false :=
  ⟨rfl, by decide, rfl⟩

/-- C6 amended: in every record the pipeline persists, the amount is
`None`, or the bare integer 0 (a zero-valued single amount escapes the
truthiness-guarded cleanup), or a currency symbol or code immediately
followed by the decimal representation of a non-negative integer
(possibly comma-grouped by the save-time cleanup; the single-amount
branch's own currency is discarded and replaced by `"$"`). -/
theorem C6_amended_amount_shape :
    ∀ (text : String) (v : PyVal), finalAmount text = some v →
      v = .vnone ∨ v = .vint 0 ∨ isCurrencyAmount v = true := by
  intro text v h
  unfold finalAmount at h
  cases he : extractAmount text with
  | error e => rw [he] at h; cases h
  | ok p =>
    rw [he] at h
    obtain ⟨a, b⟩ := p
    injection h with hv
    subst hv
    rcases extractAmount_ok_shape he with h0 | ⟨n, hn⟩ | ⟨cur, w, hcur, htok⟩
    · subst h0; left; rfl
    · subst hn
      by_cases hz : n = 0
      · subst hz; right; left; rfl
      · right; right
        rw [saveCleanupAmount_eq, if_pos (by simp [pyTruthy, hz])]
        rw [show cleanAmountValue (.vint n) = .vstr (String.mk ('$' :: commaGroup (natRepr n)))
          from by simp [cleanAmountValue, hz]]
        exact isCurrencyAmount_sym_group (by decide) n
    · subst hcur
      rw [saveCleanupAmount_eq]
      by_cases ht : pyTruthy (.vstr (String.mk (cur ++ natRepr w))) = true
      · rw [if_pos ht]
        rcases cleanAmountValue_tok_digits htok w with hcl | hcl
        · left; exact hcl
        · right; right; exact hcl
      · rw [if_neg ht]
        right; right
        exact isCurrencyAmount_tok_digits htok w

/-- Witness for C6 amended: "up to €2,500" persists the amount
"€2,500", a currency symbol followed by a comma-grouped integer. -/
theorem C6_amended_witness :
    finalAmount "up to €2,500" = some (.vstr "€2,500") ∧
    ((PyVal.vstr "€2,500") = .vnone ∨ (PyVal.vstr "€2,500") = .vint 0 ∨
      isCurrencyAmount (.vstr "€2,500") = true) :=
  ⟨rfl, C6_amended_amount_shape "up to €2,500" (.vstr "€2,500") rfl⟩

/-- C7: for "Deadline 2024" (no currency marker, no multiplier) the
extractor returns `(None, None)`; and every candidate that survives
into the single-amount pool fails the year predicate — a value in
`[1990, 2050]` with no multiplier group and no decimal point never
reaches the largest-value selection. -/
theorem C7_year_guard :
    extractAmount "Deadline 2024" = .ok (.vnone, .vnone) ∧
    ∀ (s : List Char) (c : RawCand), c ∈ pooledCands s → isYearCand c = false := by
  refine ⟨rfl, ?_⟩
  intro s c hc
  unfold pooledCands at hc
  have := List.of_mem_filter hc
  simpa using this

/-- Witness for C7: a pooled candidate of "funding of $3,000" on which
the year guard is discharged. -/
theorem C7_year_guard_witness :
    (⟨3000, some ['$'], ['3', ',', '0', '0', '0'], none⟩ : RawCand) ∈
        pooledCands "funding of $3,000".data ∧
    isYearCand ⟨3000, some ['$'], ['3', ',', '0', '0', '0'], none⟩ = false :=
  ⟨by decide, C7_year_guard.2 "funding of $3,000".data _ (by decide)⟩

/-- C8: "02-Apr-25" and "2nd April 2025" parse to the same calendar
date 2 April 2025 through the explicit-format cascade; normalisation
strips the ordinal suffix and collapses whitespace, and is idempotent
on these inputs. -/
theorem C8_date_variants_agree :
    parseDateFormats "02-Apr-25" = some ⟨2025, 4, 2⟩ ∧
    parseDateFormats "2nd April 2025" = some ⟨2025, 4, 2⟩ ∧
    parseDateFormats "02-Apr-25" = parseDateFormats "2nd April 2025" ∧
    normalizeDate "2nd  April 2025".data = "2 April 2025".data ∧
    normalizeDate (normalizeDate "2nd April 2025".data) =
      normalizeDate "2nd April 2025".data ∧
    normalizeDate (normalizeDate "02-Apr-25".data) = normalizeDate "02-Apr-25".data :=
  ⟨rfl, rfl, rfl, rfl, rfl, rfl⟩

/-- C9: the eligibility summariser returns exactly the sentinel when no
heading keyword matches, and when a heading matches but the bounded
segment has five characters or fewer; a segment longer than 300
characters is cut at the last period before the limit when that period
lies past half the limit (index 150), and otherwise hard-truncated at
300 with an appended ellipsis. -/
theorem eligSummary_eq_hit {t : String} {idx : Nat} {kw : List Char}
    (h : eligKeywordHit t.data = some (idx, kw)) :
    eligSummary t = eligSummaryHit t idx kw := by
  unfold eligSummary
  split
  · rename_i h2
    rw [h] at h2
    cases h2
  · rename_i idx2 kw2 h2
    rw [h] at h2
    cases h2
    rfl

theorem C9_eligibility_rules :
    (∀ t : String, eligKeywordHit t.data = none → eligSummary t = eligSentinel) ∧
    (∀ (t : String) (idx : Nat) (kw : List Char),
      eligKeywordHit t.data = some (idx, kw) →
      (eligSegment t idx kw).length ≤ 5 → eligSummary t = eligSentinel) ∧
    (∀ (t : String) (idx : Nat) (kw : List Char),
      eligKeywordHit t.data = some (idx, kw) →
      300 < (eligSegment t idx kw).length →
      ∀ i, lastDotIdx ((eligSegment t idx kw).take 300) = some i → 150 < i →
        eligSummary t = String.mk ((eligSegment t idx kw).take (i + 1))) ∧
    (∀ (t : String) (idx : Nat) (kw : List Char),
      eligKeywordHit t.data = some (idx, kw) →
      300 < (eligSegment t idx kw).length →
      lastDotIdx ((eligSegment t idx kw).take 300) = none →
        eligSummary t = String.mk (stripWs ((eligSegment t idx kw).take 300) ++ "...".data)) ∧
    (∀ (t : String) (idx : Nat) (kw : List Char),
      eligKeywordHit t.data = some (idx, kw) →
      300 < (eligSegment t idx kw).length →
      ∀ i, lastDotIdx ((eligSegment t idx kw).take 300) = some i → i ≤ 150 →
        eligSummary t = String.mk (stripWs ((eligSegment t idx kw).take 300) ++ "...".data)) := by
  refine ⟨?_, ?_, ?_, ?_, ?_⟩
  · intro t h
    unfold eligSummary
    split
    · rfl
    · rename_i idx2 kw2 h2
      rw [h] at h2
      cases h2
  · intro t idx kw h hle
    rw [eligSummary_eq_hit h]
    unfold eligSummaryHit
    rw [if_neg (by omega), if_neg (by omega)]
  · intro t idx kw h hgt i hdot hi
    rw [eligSummary_eq_hit h]
    unfold eligSummaryHit
    rw [if_pos (by omega), hdot]
    show (if 150 < i then String.mk ((eligSegment t idx kw).take (i + 1))
        else String.mk (stripWs ((eligSegment t idx kw).take 300) ++ "...".data)) =
      String.mk ((eligSegment t idx kw).take (i + 1))
    rw [if_pos hi]
  · intro t idx kw h hgt hdot
    rw [eligSummary_eq_hit h]
    unfold eligSummaryHit
    rw [if_pos (by omega), hdot]
  · intro t idx kw h hgt i hdot hi
    rw [eligSummary_eq_hit h]
    unfold eligSummaryHit
    rw [if_pos (by omega), hdot]
    show (if 150 < i then String.mk ((eligSegment t idx kw).take (i + 1))
        else String.mk (stripWs ((eligSegment t idx kw).take 300) ++ "...".data)) =
      String.mk (stripWs ((eligSegment t idx kw).take 300) ++ "...".data)
    rw [if_neg (by omega)]

/-- Witness for C9: a text with no recognised eligibility heading is
summarised by the sentinel. -/
theorem C9_eligibility_witness :
    eligKeywordHit "General info about grants.".data = none ∧
    eligSummary "General info about grants." = eligSentinel :=
  ⟨rfl, C9_eligibility_rules.1 "General info about grants." rfl⟩

/-- Counterexample for C10: the batch reconciliation pass assigns the
URL-derived name directly, with no minimum-length check: a persisted
record marked "Organization Not Found" with URL "https://ab.co.uk/x"
receives the organisation "Ab" — two characters, not the sentinel —
contradicting the claim that no resolution path produces a
non-sentinel organisation shorter than three characters. -/
theorem C10_short_org_counterexample :
    extractOrgFromUrl "https://ab.co.uk/x" = some "Ab" ∧
    batchPassOrg (fun _ => orgSentinel) "Organization Not Found"
        ⟨"https://ab.co.uk/x", "Title"⟩ = "Ab" ∧
    ("Ab" : String).length < 3 ∧ ("Ab" : String) ≠ orgSentinel :=
  ⟨rfl, rfl, by decide, by decide⟩

/-- C10 amended: the in-loop post-processing of lines 456-462
guarantees the stated bound — any organisation value that was truthy
and non-sentinel before post-processing leaves it as the sentinel
"Unknown Organization" or with length at least three — but the batch
reconciliation pass over records marked "Organization Not Found" can
assign non-sentinel names shorter than three characters. -/
theorem C10_amended_postprocess :
    ∀ org : String, org ≠ "" → org ≠ "Unknown Organization" →
      org ≠ "Organization Not Found" →
      postProcessOrg org = orgSentinel ∨ 3 ≤ (postProcessOrg org).length := by
  intro org h1 h2 h3
  unfold postProcessOrg
  rw [if_pos ⟨h1, h2, h3⟩]
  simp only []
  by_cases hlen :
    (stripCharSet [' ', '-', '_', '.', '/']
      (gsubOrgWords ((gsubProto (org.data.length + 1) org.data).length + 1) none
        (gsubProto (org.data.length + 1) org.data))).length < 3
  · left
    rw [if_pos hlen]
  · right
    rw [if_neg hlen]
    exact Nat.le_of_not_lt hlen

/-- Witness for C10 amended: post-processing "Ford Foundation" strips
the suffix word and keeps "Ford", of length at least three. -/
theorem C10_amended_witness :
    postProcessOrg "Ford Foundation" = "Ford" ∧
    (postProcessOrg "Ford Foundation" = orgSentinel ∨
      3 ≤ (postProcessOrg "Ford Foundation").length) :=
  ⟨rfl, C10_amended_postprocess "Ford Foundation" (by decide) (by decide) (by decide)⟩

end GrantScraper
